import Mathlib

/-!
Verification development for the round-robin multi-model conversation
orchestrator of the Manazra code base.

The definitions below are a shallow embedding of the JavaScript/TypeScript
source:

* `generateMultipleResponses` (backend/services/openrouter.js) — the batch
  orchestrator looping over rounds and models, appending one
  `ConversationResponse` and one relabeled `Message` per (model, round)
  step.  The upstream chat-completion provider is abstracted as an
  `Outcome`-valued oracle indexed by (round, model position); everything the
  provider sees besides the message list (the system prompt built by
  `buildSystemPrompt`, sampling parameters) is absorbed into that oracle.
  Environment-produced fields (ISO timestamps, random conversation ids) are
  omitted from the records: no claim mentions them and they are not
  functions of the inputs.

* the `POST /conversations/start-stream` route handler (routes file) — the
  streaming entry point, with its validation prefix, its voice-mode branch
  (non-streamed request plus markdown-fence cleaning) and its default
  streaming branch (chunk accumulation with the `responseCompleted` guard).

* `parseVoiceResponse`, `processTextQueue`, `processAudioQueue` and
  `stopCurrentAudio` (frontend/src/services/tts.ts) — the client playback
  pipeline, embedded as a labelled transition system whose labels are the
  suspension points of the async code (arrival of a response, completion or
  failure of a synthesis call, the playback events of the current audio
  element, an explicit stop).
-/

namespace Manazra

/-- The apostrophe character (kept out of string literals). -/
def apos : String := String.singleton (Char.ofNat 39)

/-- A selected model as the routes see it: provider-qualified id plus display
name.  The remaining catalog fields (description, pricing, context length)
are never read by the orchestrator. -/
structure Model where
  id : String
  name : String
deriving Repr, DecidableEq

/-- A chat message: role and content.  The orchestrator only ever builds
role "user" entries (plus the system prompt, which travels in a separate
argument of the model client and is absorbed into the oracle here). -/
structure Message where
  role : String
  content : String
deriving Repr, DecidableEq

/-- One entry of a conversation response list: `model`, visible `response`
text and the `error` flag (absent in JS on success, embedded as `false`). -/
structure ConversationResponse where
  model : Model
  response : String
  error : Bool
deriving Repr, DecidableEq

/-- Result of one upstream chat-completion call: the completion text, or the
message of the thrown error (transport failure, non-2xx, missing key). -/
inductive Outcome where
  | ok (text : String)
  | err (msg : String)
deriving Repr, DecidableEq

/-- The upstream provider, abstracted: the outcome of the call made for
round `r` (1-based, as in the source loop) and model position `k`
(0-based). -/
def Oracle : Type := Nat → Nat → Outcome

/-- Content of a relabeled peer message: `Here's what {name} said: {text}`. -/
def relabelContent (name text : String) : String :=
  "Here" ++ apos ++ "s what " ++ name ++ " said: " ++ text

/-- The relabeled `user`-role message appended to the shared history after a
model speaks. -/
def relabel (name text : String) : Message :=
  { role := "user", content := relabelContent name text }

/-- Placeholder text recorded in the history when a model fails. -/
def errorPlaceholder : String := "[Error: Unable to generate response]"

/-- The `ConversationResponse` the batch loop pushes for one step: the raw
completion text on success, `Error: {message}` flagged as error on
failure. -/
def respOf (m : Model) : Outcome → ConversationResponse
  | .ok text => { model := m, response := text, error := false }
  | .err msg => { model := m, response := "Error: " ++ msg, error := true }

/-- The history message the batch loop pushes for one step: the relabeled
text on success, the relabeled error placeholder on failure. -/
def msgOf (m : Model) : Outcome → Message
  | .ok text => relabel m.name text
  | .err _ => relabel m.name errorPlaceholder

/-- Mutable state threaded through `generateMultipleResponses`:
`conversationMessages`, the `responses` accumulator, and (for the proofs) a
trace of the message list passed to each upstream call, in call order. -/
structure OrchState where
  messages : List Message
  responses : List ConversationResponse
  requests : List (List Message)
deriving Repr, DecidableEq

/-- One iteration of the inner `for (const model of models)` loop of
`generateMultipleResponses`: call the provider with the current history
(recorded in `requests`), then push the response and the relabeled message
— on the success path and on the catch path alike. -/
def modelStep (oracle : Oracle) (r k : Nat) (m : Model) (st : OrchState) : OrchState :=
  { messages := st.messages ++ [msgOf m (oracle r k)]
    responses := st.responses ++ [respOf m (oracle r k)]
    requests := st.requests ++ [st.messages] }

/-- The inner model loop of `generateMultipleResponses`, starting at model
position `k`. -/
def runModels (oracle : Oracle) (r : Nat) : Nat → List Model → OrchState → OrchState
  | _, [], st => st
  | k, m :: ms, st => runModels oracle r (k + 1) ms (modelStep oracle r k m st)

/-- The outer `for (let round = 1; round <= responseCount; round++)` loop:
`n` rounds remaining, next round number `r`. -/
def runRounds (oracle : Oracle) (models : List Model) : Nat → Nat → OrchState → OrchState
  | _, 0, st => st
  | r, n + 1, st => runRounds oracle models (r + 1) n (runModels oracle r 0 models st)

/-- `generateMultipleResponses(models, messages, …, responseCount)`:
`responseCount` rounds in which each model responds in sequence, every
response appended to the shared history before the next call. -/
def generateMultipleResponses (oracle : Oracle) (models : List Model)
    (messages : List Message) (responseCount : Nat) : OrchState :=
  runRounds oracle models 1 responseCount
    { messages := messages, responses := [], requests := [] }

/-- Concrete fixture for instantiating the theorems below. -/
def gptModel : Model := { id := "openai/gpt-4", name := "GPT" }

/-- Concrete fixture for instantiating the theorems below. -/
def claudeModel : Model := { id := "anthropic/claude-3", name := "Claude" }

/-- Fixture oracle: every call succeeds with the same text. -/
def okOracle : Oracle := fun _ _ => .ok "hi"

/-- Fixture oracle: the first model of round 1 fails with an upstream 401,
everything else succeeds. -/
def errOracle : Oracle := fun r k =>
  if r == 1 && k == 0 then .err "Request failed with status code 401" else .ok "hi"

/-! ### What one run of the loop appends, described positionally -/

/-- The per-step values `f m outcome` produced by one round, starting at
model position `k`. -/
def roundListF {α : Type} (f : Model → Outcome → α) (oracle : Oracle) (r : Nat) :
    Nat → List Model → List α
  | _, [] => []
  | k, m :: ms => f m (oracle r k) :: roundListF f oracle r (k + 1) ms

/-- The per-step values produced by `n` consecutive rounds starting at round
number `r`. -/
def totalListF {α : Type} (f : Model → Outcome → α) (oracle : Oracle) (models : List Model) :
    Nat → Nat → List α
  | _, 0 => []
  | r, n + 1 => roundListF f oracle r 0 models ++ totalListF f oracle models (r + 1) n

/-- The message lists passed to the provider during one round, given the
history `h` at the round start. -/
def roundReqs (oracle : Oracle) (r : Nat) : Nat → List Message → List Model → List (List Message)
  | _, _, [] => []
  | k, h, m :: ms => h :: roundReqs oracle r (k + 1) (h ++ [msgOf m (oracle r k)]) ms

/-- The message lists passed to the provider during `n` rounds starting at
round `r` with history `h`. -/
def totalReqs (oracle : Oracle) (models : List Model) : Nat → Nat → List Message → List (List Message)
  | _, 0, _ => []
  | r, n + 1, h =>
    roundReqs oracle r 0 h models ++
      totalReqs oracle models (r + 1) n (h ++ roundListF msgOf oracle r 0 models)

/-! ### Voice-mode markdown-fence cleaning

Embedding of `response.replace(/```json\s*/g, '').replace(/```\s*$/g,
'').trim()` from the voice branch of the `/start-stream` handler.  The two
regex replacements are embedded as left-to-right scanners; a fuel argument
(always called with the list length, which every step strictly decreases
below) keeps them structurally recursive. -/

/-- Whitespace as matched by the regexes' `\s` and stripped by
`String.prototype.trim` (the two ECMAScript sets coincide): tab, LF, VT,
FF, CR, space, NBSP, Ogham space mark, the en/em-quad..hair-space range
U+2000-U+200A, line separator, paragraph separator, narrow NBSP, medium
mathematical space, ideographic space and the byte-order mark. -/
def isWhitespaceChar (c : Char) : Bool :=
  c == ' ' || c == '\n' || c == '\t' || c == '\r' ||
  c.toNat == 0xB || c.toNat == 0xC || c.toNat == 0xA0 || c.toNat == 0x1680 ||
  (Nat.ble 0x2000 c.toNat && Nat.ble c.toNat 0x200A) ||
  c.toNat == 0x2028 || c.toNat == 0x2029 || c.toNat == 0x202F ||
  c.toNat == 0x205F || c.toNat == 0x3000 || c.toNat == 0xFEFF

/-- The seven characters of the opening fence marker matched by the first
regex. -/
def fenceJson : List Char := "```json".data

/-- The three characters of the plain fence marker matched by the second
regex. -/
def fence3 : List Char := "```".data

/-- Scanner for `replace(/```json\s*/g, '')`: at the first position where
`\x60\x60\x60json` matches, delete it together with the following greedy
whitespace and continue scanning; otherwise keep the character. -/
def stripJsonFencesAux : Nat → List Char → List Char
  | 0, l => l
  | _ + 1, [] => []
  | fuel + 1, c :: cs =>
    if (c :: cs).take 7 = fenceJson then
      stripJsonFencesAux fuel (((c :: cs).drop 7).dropWhile isWhitespaceChar)
    else c :: stripJsonFencesAux fuel cs

def stripJsonFences (l : List Char) : List Char := stripJsonFencesAux l.length l

/-- Scanner for `replace(/```\s*$/g, '')`: a match is a plain fence whose
remaining suffix is all whitespace; everything from the first such match to
the end of the string is deleted. -/
def stripTrailingFenceAux : Nat → List Char → List Char
  | 0, l => l
  | _ + 1, [] => []
  | fuel + 1, c :: cs =>
    if (c :: cs).take 3 = fence3 && ((c :: cs).drop 3).all isWhitespaceChar then
      []
    else c :: stripTrailingFenceAux fuel cs

def stripTrailingFence (l : List Char) : List Char := stripTrailingFenceAux l.length l

/-- `String.prototype.trim`. -/
def trimChars (l : List Char) : List Char :=
  ((l.dropWhile isWhitespaceChar).reverse.dropWhile isWhitespaceChar).reverse

/-- The voice-mode cleaning step of the streaming handler. -/
def cleanVoiceResponse (s : String) : String :=
  String.mk (trimChars (stripTrailingFence (stripJsonFences s.data)))

/-! ### The streaming entry point (`POST /conversations/start-stream`) -/

/-- The conversation object the handler builds.  The environment-generated
`id`, `createdAt`/`updatedAt` timestamps and the pass-through
`systemPrompts`/`tones` maps (which only feed `buildSystemPrompt`, absorbed
into the oracle) are omitted. -/
structure Conversation where
  topic : String
  models : List Model
  responseCount : Nat
  messages : List Message
  responses : List ConversationResponse
deriving Repr, DecidableEq

/-- `models.map(m => m.name).join(', ')`. -/
def participantNames (models : List Model) : String :=
  String.intercalate ", " (models.map (·.name))

/-- The single initial `user` message both entry points start from. -/
def initialMessage (topic : String) (models : List Model) : Message :=
  { role := "user"
    content := "Let" ++ apos ++ "s discuss the following topic: " ++ topic ++ ". \n\n" ++
      "You are participating in a group discussion with the following AI models: " ++
      participantNames models ++
      ". Please provide your perspective and insights, and feel free to respond to and build upon what others say." }

/-- One line of a provider stream frame, after `line.startsWith('data: ')`
filtering and `JSON.parse` of the payload: the `[DONE]` sentinel, a frame
carrying a non-empty `choices[0].delta.content`, or anything else (a
non-`data: ` line, a malformed payload that is logged and skipped, or a
frame without content). -/
inductive SSELine where
  | done
  | delta (content : String)
  | other
deriving Repr, DecidableEq

/-- The per-model mutable state of the streaming (non-voice) branch:
`responseText`, the `responseCompleted` guard, and the conversation lists
the closures push into. -/
structure StepSt where
  responseText : String
  responseCompleted : Bool
  messages : List Message
  responses : List ConversationResponse
deriving Repr, DecidableEq

/-- `completeResponse`: guarded by `!responseCompleted && responseText`,
pushes the success response and the relabeled history message exactly
once. -/
def completeResponse (m : Model) (s : StepSt) : StepSt :=
  if s.responseCompleted = false ∧ s.responseText ≠ "" then
    { s with responseCompleted := true
             responses := s.responses ++
               [{ model := m, response := s.responseText, error := false }]
             messages := s.messages ++ [relabel m.name s.responseText] }
  else s

/-- The body of the `stream.on('data', …)` handler for the lines of one
chunk: a `[DONE]` payload completes the response and `return`s (the
remaining lines of this chunk are dropped), a content delta is appended to
`responseText`, anything else is skipped. -/
def processLines (m : Model) : List SSELine → StepSt → StepSt
  | [], s => s
  | .done :: _, s => completeResponse m s
  | .delta c :: rest, s => processLines m rest { s with responseText := s.responseText ++ c }
  | .other :: rest, s => processLines m rest s

/-- A full stream life cycle for one model: the data chunks in order, then
the `'end'` event (which calls `completeResponse` again). -/
def runStreamEvents (m : Model) (chunks : List (List SSELine)) (s : StepSt) : StepSt :=
  completeResponse m (chunks.foldl (fun s ev => processLines m ev s) s)

/-- Concatenation of the delta contents a provider stream delivers. -/
def strJoin : List String → String
  | [] => ""
  | c :: cs => c ++ strJoin cs

/-- How an upstream completion reaches the streaming branch: one singleton
delta line per chunk, then a chunk carrying the `[DONE]` sentinel. -/
def deltaChunks (cs : List String) : List (List SSELine) :=
  cs.map (fun c => [SSELine.delta c]) ++ [[SSELine.done]]

/-- How the provider splits the completion for round `r`, model position `k`
into stream chunks. -/
def Chunking : Type := Nat → Nat → List String

/-- One (model, round) step of the default streaming branch: on successful
stream creation the chunk/end events run; if
`generateStreamingResponse` throws, the outer catch pushes the
error-flagged response and the placeholder history message. -/
def streamTextStep (oracle : Oracle) (chunking : Chunking)
    (r k : Nat) (m : Model) (conv : Conversation) : Conversation :=
  match oracle r k with
  | .ok _ =>
    let s := runStreamEvents m (deltaChunks (chunking r k))
      { responseText := "", responseCompleted := false
        messages := conv.messages, responses := conv.responses }
    { conv with messages := s.messages, responses := s.responses }
  | .err msg =>
    { conv with
        responses := conv.responses ++
          [{ model := m, response := "Error: " ++ msg, error := true }]
        messages := conv.messages ++ [relabel m.name errorPlaceholder] }

/-- One (model, round) step of the voice branch: a non-streamed call whose
result is fence-cleaned before being stored and relabeled; on failure the
inner catch pushes the error response and the placeholder message. -/
def streamVoiceStep (oracle : Oracle) (r k : Nat) (m : Model)
    (conv : Conversation) : Conversation :=
  match oracle r k with
  | .ok text =>
    let cleaned := cleanVoiceResponse text
    { conv with
        responses := conv.responses ++
          [{ model := m, response := cleaned, error := false }]
        messages := conv.messages ++ [relabel m.name cleaned] }
  | .err msg =>
    { conv with
        responses := conv.responses ++
          [{ model := m, response := "Error: " ++ msg, error := true }]
        messages := conv.messages ++ [relabel m.name errorPlaceholder] }

/-- The backquote character (kept out of literals outside strings). -/
def backquote : Char := Char.ofNat 96

/-- The `ConversationResponse` the voice branch of the streaming handler
pushes for one step: the fence-cleaned text on success, `Error: {message}`
flagged as error on failure. -/
def respOfVoice (m : Model) : Outcome → ConversationResponse
  | .ok text => { model := m, response := cleanVoiceResponse text, error := false }
  | .err msg => { model := m, response := "Error: " ++ msg, error := true }

/-- The history message the voice branch pushes for one step: the relabeled
cleaned text on success, the relabeled placeholder on failure. -/
def msgOfVoice (m : Model) : Outcome → Message
  | .ok text => relabel m.name (cleanVoiceResponse text)
  | .err _ => relabel m.name errorPlaceholder

/-- The `if (responseType === 'voice')` dispatch inside the model loop. -/
def streamModelStep (oracle : Oracle) (chunking : Chunking) (responseType : String)
    (r k : Nat) (m : Model) (conv : Conversation) : Conversation :=
  if responseType = "voice" then streamVoiceStep oracle r k m conv
  else streamTextStep oracle chunking r k m conv

/-- The handler's inner model loop. -/
def streamModels (oracle : Oracle) (chunking : Chunking) (responseType : String)
    (r : Nat) : Nat → List Model → Conversation → Conversation
  | _, [], conv => conv
  | k, m :: ms, conv =>
    streamModels oracle chunking responseType r (k + 1) ms
      (streamModelStep oracle chunking responseType r k m conv)

/-- The handler's outer round loop. -/
def streamRounds (oracle : Oracle) (chunking : Chunking) (responseType : String)
    (models : List Model) : Nat → Nat → Conversation → Conversation
  | _, 0, conv => conv
  | r, n + 1, conv =>
    streamRounds oracle chunking responseType models (r + 1) n
      (streamModels oracle chunking responseType r 0 models conv)

/-- The whole post-validation body of the streaming handler: build the
conversation object around the initial message, then run all rounds,
mutating `conversation.messages` and `conversation.responses` in place. -/
def streamRun (oracle : Oracle) (chunking : Chunking) (topic : String)
    (models : List Model) (responseType : String) (rounds : Nat) : Conversation :=
  streamRounds oracle chunking responseType models 1 rounds
    { topic := topic, models := models, responseCount := rounds
      messages := [initialMessage topic models], responses := [] }

/-- The batch entry point (`POST /conversations/start`): the conversation it
returns carries `messages: initialMessages` — only the initial message, not
the history accumulated inside `generateMultipleResponses` — next to the
full response list. -/
def startBatch (oracle : Oracle) (topic : String) (models : List Model)
    (rounds : Nat) : Conversation :=
  { topic := topic, models := models, responseCount := rounds
    messages := [initialMessage topic models]
    responses :=
      (generateMultipleResponses oracle models [initialMessage topic models] rounds).responses }

/-! ### Request validation of the streaming handler -/

/-- The `models` field of the request body: absent/null, present but not an
array, or an array. -/
inductive ModelsField where
  | absent
  | nonArray
  | arr (ms : List Model)
deriving Repr, DecidableEq

/-- The request fields the handler destructures (besides the pass-through
prompt/tone maps and the api key, absorbed into the oracle). -/
structure StartReq where
  topic : Option String
  models : ModelsField
  responseCount : Option Nat
  responseType : Option String
deriving Repr, DecidableEq

/-- JS falsiness of the `topic` string field: absent or empty. -/
def falsyStr : Option String → Bool
  | none => true
  | some s => s == ""

/-- `!models || !Array.isArray(models) || models.length === 0`. -/
def modelsBad : ModelsField → Bool
  | .absent => true
  | .nonArray => true
  | .arr ms => ms.isEmpty

/-- `responseCount || 1` (note that `0` is falsy in JS). -/
def rcOf : Option Nat → Nat
  | none => 1
  | some 0 => 1
  | some (n + 1) => n + 1

/-- `responseType || 'normal'`. -/
def rtOf : Option String → String
  | none => "normal"
  | some s => if s = "" then "normal" else s

/-- The streaming handler: the validation prefix (which rejects with a
400-class body before the event channel is opened and before any model
call), then the round loop. -/
def startStreamHandler (oracle : Oracle) (chunking : Chunking)
    (req : StartReq) : Except (String × String) Conversation :=
  if falsyStr req.topic || modelsBad req.models then
    .error ("Invalid request", "Topic and models are required")
  else
    match req.topic, req.models with
    | some topic, .arr ms =>
      if ms.length > 10 then
        .error ("Too many models", "Maximum 10 models allowed per conversation")
      else
        .ok (streamRun oracle chunking topic ms (rtOf req.responseType) (rcOf req.responseCount))
    | _, _ => .error ("Invalid request", "Topic and models are required")

/-- Fixture chunking: every stream delivers one delta chunk `hi`. -/
def hiChunking : Chunking := fun _ _ => ["hi"]

/-- Fixture oracle: every call succeeds with the empty completion. -/
def emptyOracle : Oracle := fun _ _ => .ok ""

/-- Fixture chunking: a stream that delivers no content chunks at all. -/
def emptyChunking : Chunking := fun _ _ => []

/-- Fixture: a voice completion wrapped in a markdown code fence. -/
def fencedText : String :=
  "```json\n\x7b\"input\":\"hi\",\"instructions\":\"calm\"\x7d\n```"

/-- Fixture oracle: every call succeeds with the fenced voice payload. -/
def fencedOracle : Oracle := fun _ _ => .ok fencedText

/-! ### `parseVoiceResponse` (frontend/src/services/tts.ts)

The function wraps `JSON.parse` in a try/catch.  `JSON.parse` is a platform
builtin; it is embedded below as a recursive-descent parser of the JSON
grammar (values, objects with last-key-wins lookup, arrays, strings with
escapes, numbers with optional fraction/exponent, the three literals),
returning `none` exactly where `JSON.parse` throws.  A fuel argument keeps
the mutual recursion structural; every recursive step consumes at least one
character, so `length + 1` fuel is never exhausted. -/

/-- A parsed JSON value.  Numbers keep sign-carrying integer part, fraction
digits and exponent separately; only their JS truthiness (zero mantissa is
falsy) is ever consumed. -/
inductive JsonVal where
  | null
  | bool (b : Bool)
  | num (intPart : Int) (fracDigits : List Nat) (exp : Int)
  | str (s : String)
  | arr (elems : List JsonVal)
  | obj (fields : List (String × JsonVal))
deriving Repr

/-- Opening brace character (kept out of literals). -/
def lbrace : Char := Char.ofNat 123

/-- Closing brace character (kept out of literals). -/
def rbrace : Char := Char.ofNat 125

/-- JSON insignificant whitespace. -/
def isJsonWs (c : Char) : Bool := c == ' ' || c == '\t' || c == '\n' || c == '\r'

def skipWs : List Char → List Char
  | [] => []
  | c :: cs => if isJsonWs c then skipWs cs else c :: cs

def isDigitChar (c : Char) : Bool := '0' ≤ c && c ≤ '9'

def hexVal (c : Char) : Option Nat :=
  if '0' ≤ c && c ≤ '9' then some (c.toNat - 48)
  else if 'a' ≤ c && c ≤ 'f' then some (c.toNat - 87)
  else if 'A' ≤ c && c ≤ 'F' then some (c.toNat - 55)
  else none

/-- JSON string body after the opening quote: returns the decoded string and
the input after the closing quote. -/
def parseStringAux : Nat → List Char → List Char → Option (String × List Char)
  | 0, _, _ => none
  | _ + 1, _, [] => none
  | fuel + 1, acc, c :: cs =>
    if c == '"' then some (String.mk acc.reverse, cs)
    else if c == '\\' then
      match cs with
      | [] => none
      | e :: cs2 =>
        if e == '"' then parseStringAux fuel ('"' :: acc) cs2
        else if e == '\\' then parseStringAux fuel ('\\' :: acc) cs2
        else if e == '/' then parseStringAux fuel ('/' :: acc) cs2
        else if e == 'b' then parseStringAux fuel (Char.ofNat 8 :: acc) cs2
        else if e == 'f' then parseStringAux fuel (Char.ofNat 12 :: acc) cs2
        else if e == 'n' then parseStringAux fuel ('\n' :: acc) cs2
        else if e == 'r' then parseStringAux fuel ('\r' :: acc) cs2
        else if e == 't' then parseStringAux fuel ('\t' :: acc) cs2
        else if e == 'u' then
          match cs2 with
          | h1 :: h2 :: h3 :: h4 :: cs3 =>
            match hexVal h1, hexVal h2, hexVal h3, hexVal h4 with
            | some a, some b, some c2, some d =>
              parseStringAux fuel (Char.ofNat (((a * 16 + b) * 16 + c2) * 16 + d) :: acc) cs3
            | _, _, _, _ => none
          | _ => none
        else none
    else if c.toNat < 32 then none
    else parseStringAux fuel (c :: acc) cs

def digitsVal (l : List Char) : Nat := l.foldl (fun a c => a * 10 + (c.toNat - 48)) 0

/-- JSON number: `-? (0 | [1-9][0-9]*) (\.[0-9]+)? ([eE][+-]?[0-9]+)?`. -/
def parseNumber (l : List Char) : Option (JsonVal × List Char) :=
  let (neg, l1) := match l with
    | '-' :: rest => (true, rest)
    | _ => (false, l)
  match l1 with
  | [] => none
  | c :: _ =>
    if !isDigitChar c then none
    else
      let intDigits := l1.takeWhile isDigitChar
      let l2 := l1.dropWhile isDigitChar
      if intDigits.length > 1 && intDigits.head? == some '0' then none
      else
        let intPart : Int :=
          if neg then -(Int.ofNat (digitsVal intDigits)) else Int.ofNat (digitsVal intDigits)
        let (fracDigits, l3) := match l2 with
          | '.' :: rest =>
            match rest with
            | d :: _ =>
              if isDigitChar d then
                ((rest.takeWhile isDigitChar).map (fun c => c.toNat - 48),
                  some (rest.dropWhile isDigitChar))
              else ([], none)
            | [] => ([], none)
          | _ => ([], some l2)
        match l3 with
        | none => none
        | some l3 =>
          match l3 with
          | e :: rest =>
            if e == 'e' || e == 'E' then
              let (eneg, rest2) := match rest with
                | '-' :: r => (true, r)
                | '+' :: r => (false, r)
                | _ => (false, rest)
              match rest2 with
              | d :: _ =>
                if isDigitChar d then
                  let ev : Int := Int.ofNat (digitsVal (rest2.takeWhile isDigitChar))
                  some (.num intPart fracDigits (if eneg then -ev else ev),
                    rest2.dropWhile isDigitChar)
                else none
              | [] => none
            else some (.num intPart fracDigits 0, l3)
          | [] => some (.num intPart fracDigits 0, [])

mutual

/-- One JSON value, leading whitespace allowed. -/
def parseValueAux : Nat → List Char → Option (JsonVal × List Char)
  | 0, _ => none
  | fuel + 1, l =>
    match skipWs l with
    | [] => none
    | c :: cs =>
      if c == '"' then
        match parseStringAux (cs.length + 1) [] cs with
        | some (s, rest) => some (.str s, rest)
        | none => none
      else if c == lbrace then
        match skipWs cs with
        | c2 :: cs2 =>
          if c2 == rbrace then some (.obj [], cs2)
          else parseMembersAux fuel [] (c2 :: cs2)
        | [] => none
      else if c == '[' then
        match skipWs cs with
        | c2 :: cs2 =>
          if c2 == ']' then some (.arr [], cs2)
          else parseElemsAux fuel [] (c2 :: cs2)
        | [] => none
      else if c == 't' then
        match cs with
        | 'r' :: 'u' :: 'e' :: rest => some (.bool true, rest)
        | _ => none
      else if c == 'f' then
        match cs with
        | 'a' :: 'l' :: 's' :: 'e' :: rest => some (.bool false, rest)
        | _ => none
      else if c == 'n' then
        match cs with
        | 'u' :: 'l' :: 'l' :: rest => some (.null, rest)
        | _ => none
      else parseNumber (c :: cs)

/-- Non-empty object member list, positioned at a member key. -/
def parseMembersAux : Nat → List (String × JsonVal) → List Char →
    Option (JsonVal × List Char)
  | 0, _, _ => none
  | fuel + 1, acc, l =>
    match skipWs l with
    | c :: cs =>
      if c == '"' then
        match parseStringAux (cs.length + 1) [] cs with
        | some (key, rest) =>
          match skipWs rest with
          | ':' :: rest2 =>
            match parseValueAux fuel rest2 with
            | some (v, rest3) =>
              match skipWs rest3 with
              | ',' :: rest4 => parseMembersAux fuel (acc ++ [(key, v)]) rest4
              | c5 :: rest5 =>
                if c5 == rbrace then some (.obj (acc ++ [(key, v)]), rest5) else none
              | [] => none
            | none => none
          | _ => none
        | none => none
      else none
    | [] => none

/-- Non-empty array element list, positioned at an element. -/
def parseElemsAux : Nat → List JsonVal → List Char → Option (JsonVal × List Char)
  | 0, _, _ => none
  | fuel + 1, acc, l =>
    match parseValueAux fuel l with
    | some (v, rest) =>
      match skipWs rest with
      | ',' :: rest2 => parseElemsAux fuel (acc ++ [v]) rest2
      | ']' :: rest2 => some (.arr (acc ++ [v]), rest2)
      | _ => none
    | none => none

end

/-- `JSON.parse`: one value with surrounding whitespace, full consumption
required; `none` where the builtin throws. -/
def jsonParse (s : String) : Option JsonVal :=
  match parseValueAux (s.length + 1) s.data with
  | some (v, rest) => if (skipWs rest).isEmpty then some v else none
  | none => none

/-- JS truthiness of a parsed JSON value. -/
def truthy : JsonVal → Bool
  | .null => false
  | .bool b => b
  | .num i fr _ => !(i == 0 && fr.all (· == 0))
  | .str s => !(s == "")
  | .arr _ => true
  | .obj _ => true

/-- JS property access `parsed.key` on a parsed value: `none` plays the role
of `undefined` (non-objects have no own properties here); for duplicate keys
`JSON.parse` keeps the last binding. -/
def getField (j : JsonVal) (key : String) : Option JsonVal :=
  match j with
  | .obj fields => (fields.reverse.find? (fun kv => kv.1 == key)).map (·.2)
  | _ => none

/-- The record `parseVoiceResponse` returns.  The TS interface declares both
fields as `string`, but the JS stores whatever values the parsed object
carried, so the embedding keeps them as JSON values (`.str` in the fallback
path). -/
structure TTSResponse where
  input : JsonVal
  instructions : JsonVal
deriving Repr

/-- The fixed default delivery instruction of the fallback path. -/
def defaultVoiceInstructions : String :=
  "Deliver in a natural, conversational tone with clear pronunciation"

/-- `parseVoiceResponse`: try `JSON.parse`; if the result carries truthy
`input` and `instructions`, return exactly those two fields; on a parse
failure (the catch) or a failed truthiness check, fall back to the whole
raw text as `input` with the default instruction.  Total by construction —
the catch is the only consumer of parse failure. -/
def parseVoiceResponse (responseText : String) : TTSResponse :=
  match jsonParse responseText with
  | some parsed =>
    match getField parsed "input", getField parsed "instructions" with
    | some vi, some vj =>
      if truthy vi && truthy vj then { input := vi, instructions := vj }
      else { input := .str responseText, instructions := .str defaultVoiceInstructions }
    | _, _ => { input := .str responseText, instructions := .str defaultVoiceInstructions }
  | none => { input := .str responseText, instructions := .str defaultVoiceInstructions }

/-! ### The client playback pipeline (frontend/src/services/tts.ts)

`TTSService` is embedded as a labelled transition system.  Queue items are
identified by their `idCounter` number.  The synchronous bodies of
`processTextQueue` (up to its first `await`), `processAudioQueue` (up to the
`play()` call) and the `while`-loop continuation after a conversion are pure
functions on the state; the labels are the points where the async runtime
re-enters the service: a `playTTSResponse` call, resolution or rejection of
the in-flight `convertTextToAudio`, the `'play'`/`'ended'`/`'error'` events
of the current audio element, rejection of a pending `play()` promise
(autoplay block, or abort by a later `pause()`), and `stopCurrentAudio`.

Besides the class fields, the state carries bookkeeping for the proofs:
`converting` (items shifted out of the text queue whose conversion promise
is outstanding — a list, because a stop can reset `isProcessingText` and let
a second worker loop start while a conversion is in flight), `playPending`
(items whose `play()` promise is outstanding), `activeList` (audio elements
that have fired `'play'` and no terminal event yet), the `arrivals` /
`startLog` / `endLog` / `released` event logs, and ghost logs (`doneText`,
`convertedLog`, `shiftedAudio`, `resolvedAudio`) recording processing
order. -/

structure TTS where
  textQueue : List Nat
  audioQueue : List Nat
  isProcessingText : Bool
  isProcessingPlayback : Bool
  currentAudio : Option Nat
  converting : List Nat
  playPending : List Nat
  activeList : List Nat
  idCounter : Nat
  arrivals : List Nat
  startLog : List Nat
  endLog : List Nat
  released : List Nat
  doneText : List Nat
  convertedLog : List Nat
  shiftedAudio : List Nat
  resolvedAudio : List Nat
deriving Repr, DecidableEq

/-- The service as constructed: everything empty, counters zero. -/
def initTTS : TTS :=
  { textQueue := [], audioQueue := [], isProcessingText := false
    isProcessingPlayback := false, currentAudio := none, converting := []
    playPending := [], activeList := [], idCounter := 0, arrivals := []
    startLog := [], endLog := [], released := [], doneText := []
    convertedLog := [], shiftedAudio := [], resolvedAudio := [] }

/-- `isPlaying()`: a current element exists and is neither paused nor
ended — i.e. it is in the active list. -/
def ttsIsPlaying (st : TTS) : Bool :=
  match st.currentAudio with
  | none => false
  | some a => st.activeList.contains a

/-- Synchronous body of `processAudioQueue` up to the `play()` call: return
if the playback worker is busy, the queue is empty, or something is already
playing; otherwise set the busy flag, shift the head item, make it current
and issue `play()` (the item becomes play-pending). -/
def paq (st : TTS) : TTS :=
  if st.isProcessingPlayback then st
  else
    match st.audioQueue with
    | [] => st
    | a :: rest =>
      if ttsIsPlaying st then st
      else
        { st with isProcessingPlayback := true, audioQueue := rest
                  currentAudio := some a
                  playPending := st.playPending ++ [a]
                  shiftedAudio := st.shiftedAudio ++ [a] }

/-- Synchronous body of `processTextQueue` up to the first `await`: return
if the text worker is busy or the queue is empty; otherwise set the busy
flag and shift the head item into the in-flight conversion. -/
def ptq (st : TTS) : TTS :=
  if st.isProcessingText then st
  else
    match st.textQueue with
    | [] => st
    | it :: rest =>
      { st with isProcessingText := true, textQueue := rest
                converting := st.converting ++ [it] }

/-- The `while` loop continuation after a conversion settles: shift the next
item if any, otherwise exit the loop and clear the busy flag. -/
def textLoopNext (st : TTS) : TTS :=
  match st.textQueue with
  | [] => { st with isProcessingText := false }
  | it :: rest =>
    { st with textQueue := rest, converting := st.converting ++ [it] }

/-- Shared body of the `'ended'` and `'error'` listeners: revoke the item's
object URL, null out the current element (whichever it now is), fire
`onEnd`, clear the busy flag and re-enter `processAudioQueue`. -/
def terminalCleanup (id : Nat) (st : TTS) : TTS :=
  paq { st with released := st.released ++ [id]
                currentAudio := none
                activeList := st.activeList.erase id
                endLog := st.endLog ++ [id]
                isProcessingPlayback := false }

/-- The re-entry points of the service. -/
inductive TLabel where
  | arrive
  | convertOk (id : Nat)
  | convertFail (id : Nat)
  | playStarted (id : Nat)
  | playEnded (id : Nat)
  | playError (id : Nat)
  | playRejected (id : Nat)
  | stop
deriving Repr, DecidableEq

/-- One transition.  `none` means the label is not enabled in this state
(e.g. a conversion result for an item that is not in flight). -/
def ttsStep (st : TTS) : TLabel → Option TTS
  | .arrive =>
    -- playTTSResponse: fresh id, push to text queue, run both workers
    let id := st.idCounter
    let st1 := { st with idCounter := id + 1
                         arrivals := st.arrivals ++ [id]
                         textQueue := st.textQueue ++ [id] }
    some (paq (ptq st1))
  | .convertOk id =>
    -- convertTextToAudio resolved: push prepared audio, kick the playback
    -- worker, then continue the while loop
    if st.converting.contains id then
      some (textLoopNext (paq
        { st with converting := st.converting.erase id
                  doneText := st.doneText ++ [id]
                  convertedLog := st.convertedLog ++ [id]
                  audioQueue := st.audioQueue ++ [id] }))
    else none
  | .convertFail id =>
    -- conversion threw: fire onEnd so the UI is not left hanging, continue
    if st.converting.contains id then
      some (textLoopNext
        { st with converting := st.converting.erase id
                  doneText := st.doneText ++ [id]
                  endLog := st.endLog ++ [id] })
    else none
  | .playStarted id =>
    -- the 'play' event of the current element: fire onStart
    if st.playPending.contains id && st.currentAudio == some id then
      some { st with playPending := st.playPending.erase id
                     activeList := st.activeList ++ [id]
                     startLog := st.startLog ++ [id]
                     resolvedAudio := st.resolvedAudio ++ [id] }
    else none
  | .playEnded id =>
    if st.activeList.contains id then some (terminalCleanup id st) else none
  | .playError id =>
    if st.activeList.contains id then some (terminalCleanup id st) else none
  | .playRejected id =>
    -- the catch around play(): revoke, null current, fire onEnd, clear the
    -- flag and try the next item
    if st.playPending.contains id then
      some (paq
        { st with playPending := st.playPending.erase id
                  released := st.released ++ [id]
                  currentAudio := none
                  endLog := st.endLog ++ [id]
                  isProcessingPlayback := false
                  resolvedAudio := st.resolvedAudio ++ [id] })
    else none
  | .stop =>
    -- stopCurrentAudio: pause the current element (no 'ended' fires), clear
    -- both queues, revoke the prepared URLs, reset both flags
    some { st with
      currentAudio := none
      activeList := match st.currentAudio with
        | none => st.activeList
        | some a => st.activeList.erase a
      textQueue := []
      released := st.released ++ st.audioQueue
      audioQueue := []
      isProcessingText := false
      isProcessingPlayback := false }

/-- Run a label sequence from a state. -/
def ttsRun (st : TTS) : List TLabel → Option TTS
  | [] => some st
  | l :: ls =>
    match ttsStep st l with
    | none => none
    | some st' => ttsRun st' ls

/-- All item ids currently owned by one of the service structures (both
queues, the in-flight conversions, the pending `play()` calls, the playing
elements). -/
def allIds (st : TTS) : List Nat :=
  st.textQueue ++ st.audioQueue ++ st.converting ++ st.playPending ++ st.activeList

/-- Text-worker side of the stop-free pipeline invariant: every arrived item
is either fully processed, in flight, or still queued, in arrival order; at
most one conversion is in flight; the busy flag tracks it. -/
structure TextInv (st : TTS) : Prop where
  harr : st.arrivals = st.doneText ++ st.converting ++ st.textQueue
  hconv1 : st.converting.length ≤ 1
  hflagT : st.isProcessingText = true ↔ st.converting ≠ []

/-- Text-worker state in the middle of a loop iteration: a conversion just
settled and the `while` loop has not yet continued. -/
structure TextMid (st : TTS) : Prop where
  hconv : st.converting = []
  hflag : st.isProcessingText = true
  harr : st.arrivals = st.doneText ++ st.textQueue

/-- Playback side of the stop-free pipeline invariant. -/
structure AudioInv (st : TTS) : Prop where
  hcs : st.convertedLog = st.shiftedAudio ++ st.audioQueue
  hsr : st.shiftedAudio = st.resolvedAudio ++ st.playPending
  hstart : List.Sublist st.startLog st.resolvedAudio
  hpend1 : st.playPending.length ≤ 1
  hact1 : st.activeList.length ≤ 1
  hpendact : st.playPending ≠ [] → st.activeList = [] ∧ st.isProcessingPlayback = true
  hactflag : st.activeList ≠ [] → st.isProcessingPlayback = true
  hflagP : st.isProcessingPlayback = true ↔ st.currentAudio ≠ none
  hcur : ∀ a, st.currentAudio = some a → a ∈ st.playPending ∨ a ∈ st.activeList
  hlog : ∀ a ∈ st.startLog, a ∈ st.endLog ∨ a ∈ st.activeList

/-- The stop-free pipeline invariant. -/
structure PipelineInv (st : TTS) : Prop where
  text : TextInv st
  audio : AudioInv st
  cross : List.Sublist st.convertedLog st.doneText

/-- Ownership invariant, maintained across every label including stop: each
id is owned by at most one structure, and all owned ids are below the id
counter. -/
structure IdInv (st : TTS) : Prop where
  nodup : (allIds st).Nodup
  bound : ∀ id ∈ allIds st, id < st.idCounter

/-- Demo run for the ordering theorem: three arrivals, mixed conversion and
playback interleavings, one playback error. -/
def demoLabels : List TLabel :=
  [.arrive, .arrive, .arrive, .convertOk 0, .playStarted 0, .convertOk 1,
    .playEnded 0, .playStarted 1, .convertOk 2, .playError 1, .playStarted 2,
    .playEnded 2]

def demoFinal : TTS := (ttsRun initTTS demoLabels).getD initTTS

/-- Demo run for the stop theorem: item 0 playing, item 1 prepared and
queued, item 2 converting at the moment of the stop. -/
def demoPre : List TLabel :=
  [.arrive, .arrive, .arrive, .convertOk 0, .playStarted 0, .convertOk 1]

def demoPost : List TLabel := [.convertOk 2, .playStarted 2, .playEnded 2]

def demoPreFinal : TTS := (ttsRun initTTS demoPre).getD initTTS

def demoStopped : TTS := (ttsStep demoPreFinal TLabel.stop).getD initTTS

def demoPostFinal : TTS := (ttsRun demoStopped demoPost).getD initTTS

theorem roundListF_length {α : Type} (f : Model → Outcome → α) (oracle : Oracle) (r : Nat) :
    ∀ (k : Nat) (ms : List Model), (roundListF f oracle r k ms).length = ms.length := by
  intro k ms
  induction ms generalizing k with
  | nil => rfl
  | cons m tl ih => simp [roundListF, ih]

theorem totalListF_length {α : Type} (f : Model → Outcome → α) (oracle : Oracle)
    (models : List Model) : ∀ (n r : Nat),
    (totalListF f oracle models r n).length = n * models.length := by
  intro n
  induction n with
  | zero => intro r; simp [totalListF]
  | succ n ih =>
    intro r
    simp [totalListF, roundListF_length, ih, Nat.succ_mul, Nat.add_comm]

theorem roundReqs_length (oracle : Oracle) (r : Nat) :
    ∀ (ms : List Model) (k : Nat) (h : List Message),
    (roundReqs oracle r k h ms).length = ms.length := by
  intro ms
  induction ms with
  | nil => intro k h; rfl
  | cons m tl ih => intro k h; simp [roundReqs, ih]

theorem runModels_responses (oracle : Oracle) (r : Nat) :
    ∀ (ms : List Model) (k : Nat) (st : OrchState),
    (runModels oracle r k ms st).responses = st.responses ++ roundListF respOf oracle r k ms := by
  intro ms
  induction ms with
  | nil => intro k st; simp [runModels, roundListF]
  | cons m tl ih => intro k st; simp [runModels, roundListF, ih, modelStep]

theorem runModels_messages (oracle : Oracle) (r : Nat) :
    ∀ (ms : List Model) (k : Nat) (st : OrchState),
    (runModels oracle r k ms st).messages = st.messages ++ roundListF msgOf oracle r k ms := by
  intro ms
  induction ms with
  | nil => intro k st; simp [runModels, roundListF]
  | cons m tl ih => intro k st; simp [runModels, roundListF, ih, modelStep]

theorem runModels_requests (oracle : Oracle) (r : Nat) :
    ∀ (ms : List Model) (k : Nat) (st : OrchState),
    (runModels oracle r k ms st).requests =
      st.requests ++ roundReqs oracle r k st.messages ms := by
  intro ms
  induction ms with
  | nil => intro k st; simp [runModels, roundReqs]
  | cons m tl ih => intro k st; simp [runModels, roundReqs, ih, modelStep]

theorem runRounds_responses (oracle : Oracle) (models : List Model) :
    ∀ (n r : Nat) (st : OrchState),
    (runRounds oracle models r n st).responses =
      st.responses ++ totalListF respOf oracle models r n := by
  intro n
  induction n with
  | zero => intro r st; simp [runRounds, totalListF]
  | succ n ih => intro r st; simp [runRounds, totalListF, ih, runModels_responses]

theorem runRounds_messages (oracle : Oracle) (models : List Model) :
    ∀ (n r : Nat) (st : OrchState),
    (runRounds oracle models r n st).messages =
      st.messages ++ totalListF msgOf oracle models r n := by
  intro n
  induction n with
  | zero => intro r st; simp [runRounds, totalListF]
  | succ n ih => intro r st; simp [runRounds, totalListF, ih, runModels_messages]

theorem runRounds_requests (oracle : Oracle) (models : List Model) :
    ∀ (n r : Nat) (st : OrchState),
    (runRounds oracle models r n st).requests =
      st.requests ++ totalReqs oracle models r n st.messages := by
  intro n
  induction n with
  | zero => intro r st; simp [runRounds, totalReqs]
  | succ n ih =>
    intro r st
    simp [runRounds, totalReqs, ih, runModels_requests, runModels_messages]

theorem roundListF_get {α : Type} (f : Model → Outcome → α) (oracle : Oracle) (r : Nat) :
    ∀ (ms : List Model) (k j : Nat) (m : Model), ms[j]? = some m →
    (roundListF f oracle r k ms)[j]? = some (f m (oracle r (k + j))) := by
  intro ms
  induction ms with
  | nil => intro k j m hm; simp at hm
  | cons m0 tl ih =>
    intro k j m hm
    cases j with
    | zero => simp at hm; simp [roundListF, hm]
    | succ j =>
      simp at hm
      have := ih (k + 1) j m hm
      simpa [roundListF, Nat.add_assoc, Nat.add_comm 1 j] using this

theorem totalListF_get {α : Type} (f : Model → Outcome → α) (oracle : Oracle)
    (models : List Model) :
    ∀ (n r r' k : Nat) (m : Model), r' < n → models[k]? = some m →
    (totalListF f oracle models r n)[r' * models.length + k]? =
      some (f m (oracle (r + r') k)) := by
  intro n
  induction n with
  | zero => intro r r' k m hr; omega
  | succ n ih =>
    intro r r' k m hr hm
    cases r' with
    | zero =>
      have hk : k < models.length := by
        have := List.getElem?_eq_some.mp hm
        exact this.1
      rw [totalListF]
      rw [List.getElem?_append_left (by simpa [roundListF_length] using hk)]
      simpa using roundListF_get f oracle r models 0 k m hm
    | succ r' =>
      rw [totalListF]
      have hlen : (roundListF f oracle r 0 models).length = models.length :=
        roundListF_length f oracle r 0 models
      have hge : (roundListF f oracle r 0 models).length ≤ (r' + 1) * models.length + k := by
        rw [hlen]
        have hsm : (r' + 1) * models.length = r' * models.length + models.length :=
          Nat.succ_mul r' models.length
        omega
      rw [List.getElem?_append_right hge]
      have hidx : (r' + 1) * models.length + k - (roundListF f oracle r 0 models).length =
          r' * models.length + k := by
        rw [hlen]
        have hsm : (r' + 1) * models.length = r' * models.length + models.length :=
          Nat.succ_mul r' models.length
        omega
      rw [hidx]
      have := ih (r + 1) r' k m (by omega) hm
      have heq : r + 1 + r' = r + (r' + 1) := by omega
      rw [heq] at this
      exact this

theorem roundReqs_get (oracle : Oracle) (r : Nat) :
    ∀ (ms : List Model) (k : Nat) (h : List Message) (j : Nat), j < ms.length →
    (roundReqs oracle r k h ms)[j]? =
      some (h ++ roundListF msgOf oracle r k (ms.take j)) := by
  intro ms
  induction ms with
  | nil => intro k h j hj; simp at hj
  | cons m tl ih =>
    intro k h j hj
    cases j with
    | zero => simp [roundReqs, roundListF]
    | succ j =>
      have := ih (k + 1) (h ++ [msgOf m (oracle r k)]) j (by simpa using hj)
      simpa [roundReqs, roundListF, List.append_assoc] using this

theorem totalReqs_get (oracle : Oracle) (models : List Model) :
    ∀ (n r r' k : Nat) (h : List Message), r' < n → k < models.length →
    (totalReqs oracle models r n h)[r' * models.length + k]? =
      some (h ++ totalListF msgOf oracle models r r' ++
        roundListF msgOf oracle (r + r') 0 (models.take k)) := by
  intro n
  induction n with
  | zero => intro r r' k h hr; omega
  | succ n ih =>
    intro r r' k h hr hk
    cases r' with
    | zero =>
      rw [totalReqs]
      rw [List.getElem?_append_left (by simpa [roundReqs_length] using hk)]
      simpa [totalListF] using roundReqs_get oracle r models 0 h k hk
    | succ r' =>
      rw [totalReqs]
      have hlen : (roundReqs oracle r 0 h models).length = models.length :=
        roundReqs_length oracle r models 0 h
      have hge : (roundReqs oracle r 0 h models).length ≤ (r' + 1) * models.length + k := by
        rw [hlen]
        have hsm : (r' + 1) * models.length = r' * models.length + models.length :=
          Nat.succ_mul r' models.length
        omega
      rw [List.getElem?_append_right hge]
      have hidx : (r' + 1) * models.length + k - (roundReqs oracle r 0 h models).length =
          r' * models.length + k := by
        rw [hlen]
        have hsm : (r' + 1) * models.length = r' * models.length + models.length :=
          Nat.succ_mul r' models.length
        omega
      rw [hidx]
      have := ih (r + 1) r' k (h ++ roundListF msgOf oracle r 0 models) (by omega) hk
      have heq : r + 1 + r' = r + (r' + 1) := by omega
      rw [heq] at this
      rw [this]
      simp [totalListF, List.append_assoc]

theorem msgOf_shape (m : Model) (o : Outcome) :
    (msgOf m o).role = "user" ∧ ∃ name txt, (msgOf m o).content = relabelContent name txt := by
  cases o <;> exact ⟨rfl, m.name, _, rfl⟩

theorem mem_roundListF {α : Type} {f : Model → Outcome → α} {oracle : Oracle} {r : Nat} :
    ∀ {ms : List Model} {k : Nat} {x : α}, x ∈ roundListF f oracle r k ms →
    ∃ m o, x = f m o := by
  intro ms
  induction ms with
  | nil => intro k x hx; simp [roundListF] at hx
  | cons m tl ih =>
    intro k x hx
    rw [roundListF] at hx
    rcases List.mem_cons.mp hx with h | h
    · exact ⟨m, oracle r k, h⟩
    · exact ih h

theorem mem_totalListF {α : Type} {f : Model → Outcome → α} {oracle : Oracle}
    {models : List Model} :
    ∀ {n r : Nat} {x : α}, x ∈ totalListF f oracle models r n → ∃ m o, x = f m o := by
  intro n
  induction n with
  | zero => intro r x hx; simp [totalListF] at hx
  | succ n ih =>
    intro r x hx
    rw [totalListF] at hx
    rcases List.mem_append.mp hx with h | h
    · exact mem_roundListF h
    · exact ih h

/-- C1: for every batch conversation with a model list of length M
(1 ≤ M ≤ 10) and round count R ≥ 1, `generateMultipleResponses` returns
exactly R×M responses — one `ConversationResponse` (success or error) per
(model, round) pair — ordered round-major, model-minor: the entry at
position r⬝M + k is the step of model k in round r+1. -/
theorem batch_response_grid (oracle : Oracle) (models : List Model)
    (messages : List Message) (R : Nat)
    (hM : 1 ≤ models.length) (hM10 : models.length ≤ 10) (hR : 1 ≤ R) :
    (generateMultipleResponses oracle models messages R).responses.length =
      R * models.length ∧
    ∀ r k m, r < R → models[k]? = some m →
      (generateMultipleResponses oracle models messages R).responses[r * models.length + k]? =
        some (respOf m (oracle (1 + r) k)) := by
  constructor
  · rw [generateMultipleResponses, runRounds_responses]
    simp [totalListF_length]
  · intro r k m hr hm
    rw [generateMultipleResponses, runRounds_responses]
    simpa using totalListF_get respOf oracle models R 1 r k m hr hm

theorem batch_response_grid_witness :
    (generateMultipleResponses okOracle [gptModel, claudeModel] [] 2).responses.length = 4 ∧
    (generateMultipleResponses okOracle [gptModel, claudeModel] [] 2).responses[3]? =
      some (respOf claudeModel (okOracle 2 1)) := by
  have h := batch_response_grid okOracle [gptModel, claudeModel] [] 2
    (by decide) (by decide) (by decide)
  refine ⟨by simpa using h.1, ?_⟩
  simpa using h.2 1 1 claudeModel (by decide) (by decide)

/-- C2: the message list sent to the provider at step (round r+1, model k)
is the initial messages followed by exactly one relabeled entry per
previously completed step — all earlier rounds, then models 0..k−1 of the
current round, in completion order; every relabeled entry is a `user`-role
`Here's what … said: …` message, and no message the orchestrator ever adds
to the history has role `assistant`. -/
theorem batch_request_messages (oracle : Oracle) (models : List Model)
    (messages : List Message) (R r k : Nat) (hr : r < R) (hk : k < models.length) :
    ((generateMultipleResponses oracle models messages R).requests[r * models.length + k]? =
      some (messages ++ totalListF msgOf oracle models 1 r ++
        roundListF msgOf oracle (1 + r) 0 (models.take k))) ∧
    (totalListF msgOf oracle models 1 r ++
        roundListF msgOf oracle (1 + r) 0 (models.take k)).length =
      r * models.length + k ∧
    (∀ msg ∈ totalListF msgOf oracle models 1 r ++
        roundListF msgOf oracle (1 + r) 0 (models.take k),
      msg.role = "user" ∧ ∃ name txt, msg.content = relabelContent name txt) ∧
    (∀ msg ∈ (generateMultipleResponses oracle models messages R).messages,
      msg ∈ messages ∨ msg.role = "user") := by
  refine ⟨?_, ?_, ?_, ?_⟩
  · rw [generateMultipleResponses, runRounds_requests]
    simpa using totalReqs_get oracle models R 1 r k messages hr hk
  · simp [totalListF_length, roundListF_length, List.length_take,
      Nat.min_eq_left (Nat.le_of_lt hk)]
  · intro msg hmsg
    rcases List.mem_append.mp hmsg with h | h
    · obtain ⟨m, o, rfl⟩ := mem_totalListF h
      exact msgOf_shape m o
    · obtain ⟨m, o, rfl⟩ := mem_roundListF h
      exact msgOf_shape m o
  · intro msg hmsg
    rw [generateMultipleResponses, runRounds_messages] at hmsg
    rcases List.mem_append.mp hmsg with h | h
    · exact Or.inl h
    · obtain ⟨m, o, rfl⟩ := mem_totalListF h
      exact Or.inr (msgOf_shape m o).1

theorem batch_request_messages_witness :
    (generateMultipleResponses okOracle [gptModel, claudeModel] [] 2).requests[3]? =
      some ([] ++ totalListF msgOf okOracle [gptModel, claudeModel] 1 1 ++
        roundListF msgOf okOracle 2 0 ([gptModel, claudeModel].take 1)) := by
  have h := (batch_request_messages okOracle [gptModel, claudeModel] [] 2 1 1
    (by decide) (by decide)).1
  simpa using h

/-- C3: when the call for model k0 of round r0+1 fails, the loop appends an
error-flagged response whose visible text is `Error: ` plus the failure
message, appends the relabeled `[Error: Unable to generate response]`
placeholder to the shared history at the position of that step, and still
produces exactly one response for every (model, round) pair — the failure
aborts neither the round nor the conversation. -/
theorem batch_failure_isolated (oracle : Oracle) (models : List Model)
    (messages : List Message) (R r0 k0 : Nat) (m0 : Model) (emsg : String)
    (hr : r0 < R) (hm : models[k0]? = some m0)
    (herr : oracle (1 + r0) k0 = .err emsg) :
    ((generateMultipleResponses oracle models messages R).responses[r0 * models.length + k0]? =
      some { model := m0, response := "Error: " ++ emsg, error := true }) ∧
    ((generateMultipleResponses oracle models
        messages R).messages[messages.length + (r0 * models.length + k0)]? =
      some (relabel m0.name errorPlaceholder)) ∧
    ((generateMultipleResponses oracle models messages R).responses.length =
      R * models.length) ∧
    (∀ r k m, r < R → models[k]? = some m →
      (generateMultipleResponses oracle models messages R).responses[r * models.length + k]? =
        some (respOf m (oracle (1 + r) k))) := by
  refine ⟨?_, ?_, ?_, ?_⟩
  · rw [generateMultipleResponses, runRounds_responses]
    have := totalListF_get respOf oracle models R 1 r0 k0 m0 hr hm
    rw [herr] at this
    simpa [respOf] using this
  · rw [generateMultipleResponses, runRounds_messages]
    have hle : messages.length ≤ messages.length + (r0 * models.length + k0) :=
      Nat.le_add_right _ _
    rw [List.getElem?_append_right hle]
    have := totalListF_get msgOf oracle models R 1 r0 k0 m0 hr hm
    rw [herr] at this
    simpa [msgOf] using this
  · rw [generateMultipleResponses, runRounds_responses]
    simp [totalListF_length]
  · intro r k m hrr hmm
    rw [generateMultipleResponses, runRounds_responses]
    simpa using totalListF_get respOf oracle models R 1 r k m hrr hmm

theorem batch_failure_isolated_witness :
    ((generateMultipleResponses errOracle [gptModel, claudeModel] [] 2).responses[0]? =
      some { model := gptModel
             response := "Error: Request failed with status code 401", error := true }) ∧
    (generateMultipleResponses errOracle [gptModel, claudeModel] [] 2).responses.length = 4 ∧
    (generateMultipleResponses errOracle [gptModel, claudeModel] [] 2).responses[3]? =
      some (respOf claudeModel (errOracle 2 1)) := by
  have h := batch_failure_isolated errOracle [gptModel, claudeModel] [] 2 0 0 gptModel
    "Request failed with status code 401" (by decide) (by decide) (by decide)
  refine ⟨by simpa using h.1, by simpa using h.2.2.1, ?_⟩
  simpa using h.2.2.2 1 1 claudeModel (by decide) (by decide)

/-- C7: a start request with a missing or empty topic, a missing, empty or
non-array model list, or more than 10 models is rejected with the matching
400-class body; the rejection is decided before any model is invoked —
the result of a rejected request does not depend on the provider oracle or
on the stream chunking — and an unspecified round count behaves exactly
like round count 1. -/
theorem start_stream_validation (oracle oracle2 : Oracle) (chunking chunking2 : Chunking)
    (req : StartReq) :
    ((falsyStr req.topic || modelsBad req.models) = true →
      startStreamHandler oracle chunking req =
        .error ("Invalid request", "Topic and models are required")) ∧
    (∀ topic ms, req.topic = some topic → topic ≠ "" → req.models = .arr ms →
      ms.length > 10 →
      startStreamHandler oracle chunking req =
        .error ("Too many models", "Maximum 10 models allowed per conversation")) ∧
    ((falsyStr req.topic || modelsBad req.models) = true ∨
        (∃ ms, req.models = .arr ms ∧ ms.length > 10) →
      startStreamHandler oracle chunking req = startStreamHandler oracle2 chunking2 req) ∧
    (startStreamHandler oracle chunking { req with responseCount := none } =
      startStreamHandler oracle chunking { req with responseCount := some 1 }) := by
  refine ⟨?_, ?_, ?_, ?_⟩
  · intro hbad
    simp [startStreamHandler, hbad]
  · intro topic ms htopic hne hmodels hlen
    have hfal : falsyStr (some topic) = false := by simpa [falsyStr] using hne
    have hmb : modelsBad (ModelsField.arr ms) = false := by
      have : ms ≠ [] := by
        intro h; rw [h] at hlen; simp at hlen
      simpa [modelsBad] using this
    simp [startStreamHandler, htopic, hmodels, hfal, hmb, hlen]
  · intro hbad
    rcases hbad with hbad | ⟨ms, hmodels, hlen⟩
    · simp [startStreamHandler, hbad]
    · by_cases hfal : (falsyStr req.topic || modelsBad req.models) = true
      · simp [startStreamHandler, hfal]
      · have hfal' : falsyStr req.topic = false ∧ modelsBad req.models = false := by
          constructor <;> revert hfal <;> cases falsyStr req.topic <;>
            cases modelsBad req.models <;> simp
        cases htopic : req.topic with
        | none => rw [htopic] at hfal'; simp [falsyStr] at hfal'
        | some topic =>
          simp [startStreamHandler, hfal'.1, hfal'.2, htopic, hmodels, hlen]
  · rfl

theorem start_stream_validation_witness :
    startStreamHandler okOracle hiChunking
      { topic := none, models := .absent, responseCount := none, responseType := none } =
      .error ("Invalid request", "Topic and models are required") :=
  (start_stream_validation okOracle okOracle hiChunking hiChunking
    { topic := none, models := .absent, responseCount := none, responseType := none }).1
    (by decide)

/-! ### Single-completion guard of the streaming branch (C10) -/

theorem completeResponse_inv (m : Model) (R0 : List ConversationResponse)
    (M0 : List Message) (s : StepSt)
    (h : (s.responseCompleted = false ∧ s.responses = R0 ∧ s.messages = M0) ∨
      (∃ t, t ≠ "" ∧ s.responseCompleted = true ∧
        s.responses = R0 ++ [{ model := m, response := t, error := false }] ∧
        s.messages = M0 ++ [relabel m.name t])) :
    ((completeResponse m s).responseCompleted = false ∧
        (completeResponse m s).responses = R0 ∧ (completeResponse m s).messages = M0) ∨
      (∃ t, t ≠ "" ∧ (completeResponse m s).responseCompleted = true ∧
        (completeResponse m s).responses =
          R0 ++ [{ model := m, response := t, error := false }] ∧
        (completeResponse m s).messages = M0 ++ [relabel m.name t]) := by
  rcases h with ⟨hc, hr, hm⟩ | ⟨t, ht, hc, hr, hm⟩
  · by_cases hne : s.responseText = ""
    · left
      simp [completeResponse, hne, hc, hr, hm]
    · right
      exact ⟨s.responseText, hne, by simp [completeResponse, hc, hne, hr, hm]⟩
  · right
    exact ⟨t, ht, by simp [completeResponse, hc, hr, hm]⟩

theorem processLines_inv (m : Model) (R0 : List ConversationResponse) (M0 : List Message) :
    ∀ (lines : List SSELine) (s : StepSt),
    ((s.responseCompleted = false ∧ s.responses = R0 ∧ s.messages = M0) ∨
      (∃ t, t ≠ "" ∧ s.responseCompleted = true ∧
        s.responses = R0 ++ [{ model := m, response := t, error := false }] ∧
        s.messages = M0 ++ [relabel m.name t])) →
    (((processLines m lines s).responseCompleted = false ∧
        (processLines m lines s).responses = R0 ∧ (processLines m lines s).messages = M0) ∨
      (∃ t, t ≠ "" ∧ (processLines m lines s).responseCompleted = true ∧
        (processLines m lines s).responses =
          R0 ++ [{ model := m, response := t, error := false }] ∧
        (processLines m lines s).messages = M0 ++ [relabel m.name t])) := by
  intro lines
  induction lines with
  | nil => intro s h; exact h
  | cons l rest ih =>
    intro s h
    cases l with
    | done => exact completeResponse_inv m R0 M0 s h
    | delta c =>
      refine ih _ ?_
      rcases h with ⟨hc, hr, hm⟩ | ⟨t, ht, hc, hr, hm⟩
      · exact Or.inl ⟨hc, hr, hm⟩
      · exact Or.inr ⟨t, ht, hc, hr, hm⟩
    | other => exact ih s h

theorem foldLines_inv (m : Model) (R0 : List ConversationResponse) (M0 : List Message) :
    ∀ (chunks : List (List SSELine)) (s : StepSt),
    ((s.responseCompleted = false ∧ s.responses = R0 ∧ s.messages = M0) ∨
      (∃ t, t ≠ "" ∧ s.responseCompleted = true ∧
        s.responses = R0 ++ [{ model := m, response := t, error := false }] ∧
        s.messages = M0 ++ [relabel m.name t])) →
    (((chunks.foldl (fun s ev => processLines m ev s) s).responseCompleted = false ∧
        (chunks.foldl (fun s ev => processLines m ev s) s).responses = R0 ∧
        (chunks.foldl (fun s ev => processLines m ev s) s).messages = M0) ∨
      (∃ t, t ≠ "" ∧
        (chunks.foldl (fun s ev => processLines m ev s) s).responseCompleted = true ∧
        (chunks.foldl (fun s ev => processLines m ev s) s).responses =
          R0 ++ [{ model := m, response := t, error := false }] ∧
        (chunks.foldl (fun s ev => processLines m ev s) s).messages =
          M0 ++ [relabel m.name t])) := by
  intro chunks
  induction chunks with
  | nil => intro s h; exact h
  | cons ev rest ih =>
    intro s h
    exact ih _ (processLines_inv m R0 M0 ev s h)

theorem processLines_noDelta (m : Model) :
    ∀ (lines : List SSELine) (s : StepSt), (∀ l ∈ lines, ∀ c, l ≠ .delta c) →
    s.responseText = "" → processLines m lines s = s := by
  intro lines
  induction lines with
  | nil => intro s _ _; rfl
  | cons l rest ih =>
    intro s hnd ht
    cases l with
    | done =>
      rw [processLines, completeResponse]
      simp [ht]
    | delta c => exact absurd rfl (hnd _ (List.mem_cons_self _ _) c)
    | other => exact ih s (fun l hl => hnd l (List.mem_cons_of_mem _ hl)) ht

/-- C10: in the streaming (non-voice) branch, one (model, round) step
appends at most one `ConversationResponse` and at most one relabeled
history message even though completion runs both on the `[DONE]` sentinel
and on the stream `'end'` event — the `responseCompleted` flag guards the
second attempt — and a success entry is appended only with non-empty
accumulated text: a stream whose data chunks carry no content delta at all
appends neither a response nor a history message. -/
theorem streaming_single_completion (m : Model) (chunks : List (List SSELine))
    (M0 : List Message) (R0 : List ConversationResponse) :
    (((runStreamEvents m chunks
          { responseText := "", responseCompleted := false
            messages := M0, responses := R0 }).responses = R0 ∧
        (runStreamEvents m chunks
          { responseText := "", responseCompleted := false
            messages := M0, responses := R0 }).messages = M0) ∨
      (∃ t, t ≠ "" ∧
        (runStreamEvents m chunks
          { responseText := "", responseCompleted := false
            messages := M0, responses := R0 }).responses =
          R0 ++ [{ model := m, response := t, error := false }] ∧
        (runStreamEvents m chunks
          { responseText := "", responseCompleted := false
            messages := M0, responses := R0 }).messages = M0 ++ [relabel m.name t])) ∧
    ((∀ ev ∈ chunks, ∀ l ∈ ev, ∀ c, l ≠ .delta c) →
      runStreamEvents m chunks
          { responseText := "", responseCompleted := false
            messages := M0, responses := R0 } =
        { responseText := "", responseCompleted := false
          messages := M0, responses := R0 }) := by
  constructor
  · have h := foldLines_inv m R0 M0 chunks
      { responseText := "", responseCompleted := false, messages := M0, responses := R0 }
      (Or.inl ⟨rfl, rfl, rfl⟩)
    have h2 := completeResponse_inv m R0 M0 _ h
    rw [runStreamEvents]
    rcases h2 with ⟨_, hr, hm⟩ | ⟨t, ht, _, hr, hm⟩
    · exact Or.inl ⟨hr, hm⟩
    · exact Or.inr ⟨t, ht, hr, hm⟩
  · intro hnd
    have key : ∀ (cs : List (List SSELine)),
        (∀ ev ∈ cs, ∀ l ∈ ev, ∀ c, l ≠ .delta c) →
        (cs.foldl (fun s ev => processLines m ev s)
          { responseText := "", responseCompleted := false
            messages := M0, responses := R0 }) =
          { responseText := "", responseCompleted := false
            messages := M0, responses := R0 } := by
      intro cs
      induction cs with
      | nil => intro _; rfl
      | cons ev rest ih =>
        intro hnd2
        have h1 : processLines m ev
            { responseText := "", responseCompleted := false
              messages := M0, responses := R0 } =
            { responseText := "", responseCompleted := false
              messages := M0, responses := R0 } :=
          processLines_noDelta m ev _ (hnd2 ev (List.mem_cons_self _ _)) rfl
        rw [List.foldl_cons, h1]
        exact ih (fun e he => hnd2 e (List.mem_cons_of_mem _ he))
    rw [runStreamEvents, key chunks hnd, completeResponse]
    simp

theorem streaming_single_completion_witness :
    runStreamEvents gptModel [[SSELine.other]]
        { responseText := "", responseCompleted := false
          messages := [], responses := [] } =
      { responseText := "", responseCompleted := false
        messages := [], responses := [] } :=
  (streaming_single_completion gptModel [[SSELine.other]] [] []).2
    (by intro ev hev l hl c; fin_cases hev <;> fin_cases hl <;> simp)

/-! ### Streaming run versus batch run (C4) -/

theorem completeResponse_completed (m : Model) (s : StepSt)
    (h : s.responseCompleted = true) : completeResponse m s = s := by
  simp [completeResponse, h]

theorem foldDeltaChunks (m : Model) :
    ∀ (cs : List String) (s : StepSt),
    (cs.map (fun c => [SSELine.delta c])).foldl (fun s ev => processLines m ev s) s =
      { s with responseText := s.responseText ++ strJoin cs } := by
  intro cs
  induction cs with
  | nil => intro s; simp [strJoin, String.append_empty]
  | cons c rest ih =>
    intro s
    simp only [List.map_cons, List.foldl_cons, processLines]
    rw [ih]
    simp [strJoin, String.append_assoc]

theorem runStreamEvents_ok (m : Model) (cs : List String) (t : String)
    (hj : strJoin cs = t) (ht : t ≠ "") (M0 : List Message)
    (R0 : List ConversationResponse) :
    runStreamEvents m (deltaChunks cs)
        { responseText := "", responseCompleted := false
          messages := M0, responses := R0 } =
      { responseText := t, responseCompleted := true
        messages := M0 ++ [relabel m.name t]
        responses := R0 ++ [{ model := m, response := t, error := false }] } := by
  have h0 : ("" : String) ++ t = t := rfl
  rw [runStreamEvents, deltaChunks, List.foldl_append, foldDeltaChunks]
  simp only [List.foldl_cons, List.foldl_nil, processLines, hj, h0]
  simp [completeResponse, ht]

theorem streamTextStep_eq (oracle : Oracle) (chunking : Chunking) (r k : Nat)
    (m : Model) (conv : Conversation)
    (hok : ∀ t, oracle r k = .ok t → t ≠ "" ∧ strJoin (chunking r k) = t) :
    streamTextStep oracle chunking r k m conv =
      { conv with messages := conv.messages ++ [msgOf m (oracle r k)]
                  responses := conv.responses ++ [respOf m (oracle r k)] } := by
  cases ho : oracle r k with
  | ok t =>
    obtain ⟨ht, hj⟩ := hok t ho
    simp only [streamTextStep, ho]
    rw [runStreamEvents_ok m (chunking r k) t hj ht conv.messages conv.responses]
    simp [msgOf, respOf]
  | err msg => simp [streamTextStep, ho, msgOf, respOf]

theorem streamModels_eq (oracle : Oracle) (chunking : Chunking) (rt : String)
    (hrt : rt ≠ "voice") (r : Nat)
    (hok : ∀ k t, oracle r k = .ok t → t ≠ "" ∧ strJoin (chunking r k) = t) :
    ∀ (ms : List Model) (k : Nat) (conv : Conversation),
    streamModels oracle chunking rt r k ms conv =
      { conv with messages := conv.messages ++ roundListF msgOf oracle r k ms
                  responses := conv.responses ++ roundListF respOf oracle r k ms } := by
  intro ms
  induction ms with
  | nil => intro k conv; simp [streamModels, roundListF]
  | cons m tl ih =>
    intro k conv
    rw [streamModels]
    simp only [streamModelStep]
    rw [if_neg hrt]
    rw [streamTextStep_eq oracle chunking r k m conv (fun t ht => hok k t ht)]
    rw [ih]
    simp [roundListF, List.append_assoc]

theorem streamRounds_eq (oracle : Oracle) (chunking : Chunking) (rt : String)
    (models : List Model) (hrt : rt ≠ "voice")
    (hok : ∀ r k t, oracle r k = .ok t → t ≠ "" ∧ strJoin (chunking r k) = t) :
    ∀ (n r : Nat) (conv : Conversation),
    streamRounds oracle chunking rt models r n conv =
      { conv with messages := conv.messages ++ totalListF msgOf oracle models r n
                  responses := conv.responses ++ totalListF respOf oracle models r n } := by
  intro n
  induction n with
  | zero => intro r conv; simp [streamRounds, totalListF]
  | succ n ih =>
    intro r conv
    rw [streamRounds, streamModels_eq oracle chunking rt hrt r (fun k t => hok r k t), ih]
    simp [totalListF, List.append_assoc]

set_option maxRecDepth 8192 in
/-- C4 counterexample: with identical upstream outputs the two entry points
do not produce the same final Conversation.  (i) Even for a plain non-voice
run the batch endpoint's returned conversation keeps `messages:
initialMessages` while the streaming conversation has accumulated the
relabeled history.  (ii) A successful stream whose accumulated text is
empty appends no response in streaming mode, but batch mode stores the
empty completion.  (iii) In voice mode the streaming handler stores the
fence-cleaned text while the batch path stores the raw fenced text. -/
theorem stream_batch_mismatch :
    ((streamRun okOracle hiChunking "t" [gptModel] "normal" 1).messages ≠
      (startBatch okOracle "t" [gptModel] 1).messages) ∧
    ((streamRun emptyOracle emptyChunking "t" [gptModel] "normal" 1).responses ≠
      (startBatch emptyOracle "t" [gptModel] 1).responses) ∧
    ((streamRun fencedOracle hiChunking "t" [gptModel] "voice" 1).responses ≠
      (startBatch fencedOracle "t" [gptModel] 1).responses) := by
  exact ⟨by decide, by decide, by decide⟩

/-- C4 (amended): for non-voice runs in which every successful upstream
output is non-empty (delivered as stream chunks concatenating to the same
text), the streaming entry point produces the same response list as the
batch entry point, and its final message sequence equals the history the
batch orchestrator accumulates internally; the batch endpoint's returned
conversation, however, retains only the initial message. -/
theorem stream_batch_equiv (oracle : Oracle) (chunking : Chunking) (topic : String)
    (models : List Model) (rt : String) (rounds : Nat)
    (hrt : rt ≠ "voice")
    (hok : ∀ r k t, oracle r k = .ok t → t ≠ "" ∧ strJoin (chunking r k) = t) :
    (streamRun oracle chunking topic models rt rounds).responses =
      (startBatch oracle topic models rounds).responses ∧
    (streamRun oracle chunking topic models rt rounds).messages =
      (generateMultipleResponses oracle models [initialMessage topic models] rounds).messages ∧
    (startBatch oracle topic models rounds).messages = [initialMessage topic models] := by
  refine ⟨?_, ?_, rfl⟩
  · rw [streamRun, streamRounds_eq oracle chunking rt models hrt hok]
    simp [startBatch, generateMultipleResponses, runRounds_responses]
  · rw [streamRun, streamRounds_eq oracle chunking rt models hrt hok]
    simp [generateMultipleResponses, runRounds_messages]

theorem stream_batch_equiv_witness :
    (streamRun okOracle hiChunking "t" [gptModel, claudeModel] "normal" 2).responses =
      (startBatch okOracle "t" [gptModel, claudeModel] 2).responses :=
  (stream_batch_equiv okOracle hiChunking "t" [gptModel, claudeModel] "normal" 2
    (by decide)
    (by
      intro r k t h
      obtain rfl : "hi" = t := Outcome.ok.inj h
      exact ⟨by decide, rfl⟩)).1

/-! ### The fence-cleaning scanners on fenced input (C5) -/

theorem fenceJson_eq : fenceJson =
    backquote :: backquote :: backquote :: 'j' :: 's' :: 'o' :: 'n' :: [] := by decide

theorem sjfa_nil : ∀ fuel, stripJsonFencesAux fuel [] = [] := by
  intro fuel; cases fuel <;> rfl

theorem sjfa_cons_ne (fuel : Nat) (c : Char) (cs : List Char) (h : c ≠ backquote) :
    stripJsonFencesAux (fuel + 1) (c :: cs) = c :: stripJsonFencesAux fuel cs := by
  rw [stripJsonFencesAux, if_neg]
  intro hcond
  rw [fenceJson_eq] at hcond
  simp [List.take] at hcond
  exact h hcond.1

theorem sjfa_fence3 (fuel : Nat) :
    stripJsonFencesAux (fuel + 3) (backquote :: backquote :: backquote :: []) =
      backquote :: backquote :: backquote :: [] := by
  rw [stripJsonFencesAux, if_neg (by decide)]
  rw [stripJsonFencesAux, if_neg (by decide)]
  rw [stripJsonFencesAux, if_neg (by decide)]
  rw [sjfa_nil]

theorem sjfa_safe (l : List Char) (hl : ∀ ch ∈ l, ch ≠ backquote) :
    ∀ fuel, l.length + 4 ≤ fuel →
    stripJsonFencesAux fuel (l ++ '\n' :: backquote :: backquote :: backquote :: []) =
      l ++ '\n' :: backquote :: backquote :: backquote :: [] := by
  induction l with
  | nil =>
    intro fuel hf
    obtain ⟨f, rfl⟩ : ∃ f, fuel = f + 4 := ⟨fuel - 4, by omega⟩
    rw [List.nil_append, sjfa_cons_ne _ _ _ (by decide), sjfa_fence3]
  | cons c cs ih =>
    intro fuel hf
    obtain ⟨f, rfl⟩ : ∃ f, fuel = f + 1 := ⟨fuel - 1, by omega⟩
    rw [List.cons_append, sjfa_cons_ne _ _ _ (hl c (List.mem_cons_self _ _))]
    rw [ih (fun ch h => hl ch (List.mem_cons_of_mem _ h)) f (by simp at hf; omega)]

theorem sjfa_match (rest : List Char) (fuel : Nat) :
    stripJsonFencesAux (fuel + 1) (fenceJson ++ rest) =
      stripJsonFencesAux fuel (rest.dropWhile isWhitespaceChar) := by
  rw [fenceJson_eq]
  simp only [List.cons_append, List.nil_append]
  rw [stripJsonFencesAux, if_pos]
  · simp [List.drop]
  · rw [fenceJson_eq]
    simp [List.take]

theorem stfa_nil : ∀ fuel, stripTrailingFenceAux fuel [] = [] := by
  intro fuel; cases fuel <;> rfl

theorem stfa_cons_ne (fuel : Nat) (c : Char) (cs : List Char) (h : c ≠ backquote) :
    stripTrailingFenceAux (fuel + 1) (c :: cs) = c :: stripTrailingFenceAux fuel cs := by
  rw [stripTrailingFenceAux, if_neg]
  intro hcond
  rw [Bool.and_eq_true] at hcond
  have h3 := hcond.1
  rw [decide_eq_true_eq] at h3
  have : fence3 = backquote :: backquote :: backquote :: [] := by decide
  rw [this] at h3
  simp [List.take] at h3
  exact h h3.1

theorem stfa_fence3 (fuel : Nat) :
    stripTrailingFenceAux (fuel + 1) (backquote :: backquote :: backquote :: []) = [] := by
  rw [stripTrailingFenceAux, if_pos (by decide)]

theorem stfa_safe (l : List Char) (hl : ∀ ch ∈ l, ch ≠ backquote) :
    ∀ fuel, l.length + 4 ≤ fuel →
    stripTrailingFenceAux fuel (l ++ '\n' :: backquote :: backquote :: backquote :: []) =
      l ++ ['\n'] := by
  induction l with
  | nil =>
    intro fuel hf
    obtain ⟨f, rfl⟩ : ∃ f, fuel = f + 2 := ⟨fuel - 2, by omega⟩
    rw [List.nil_append, stfa_cons_ne _ _ _ (by decide), stfa_fence3]
    rfl
  | cons c cs ih =>
    intro fuel hf
    obtain ⟨f, rfl⟩ : ∃ f, fuel = f + 1 := ⟨fuel - 1, by omega⟩
    rw [List.cons_append, stfa_cons_ne _ _ _ (hl c (List.mem_cons_self _ _))]
    rw [ih (fun ch h => hl ch (List.mem_cons_of_mem _ h)) f (by simp at hf; omega)]
    rfl

theorem trimChars_append_newline (l : List Char) (hne : l ≠ [])
    (hh : ∀ ch, l.head? = some ch → isWhitespaceChar ch = false)
    (hl : ∀ ch, l.getLast? = some ch → isWhitespaceChar ch = false) :
    trimChars (l ++ ['\n']) = l := by
  have hdw1 : (l ++ ['\n']).dropWhile isWhitespaceChar = l ++ ['\n'] := by
    cases l with
    | nil => exact absurd rfl hne
    | cons c cs =>
      rw [List.cons_append, List.dropWhile_cons, hh c rfl]
      simp
  rw [trimChars, hdw1, List.reverse_append]
  simp only [List.reverse_cons, List.reverse_nil, List.nil_append, List.singleton_append]
  rw [List.dropWhile_cons]
  simp only [show isWhitespaceChar '\n' = true from rfl, if_true]
  have hdw2 : l.reverse.dropWhile isWhitespaceChar = l.reverse := by
    cases hr : l.reverse with
    | nil => rfl
    | cons d ds =>
      rw [List.dropWhile_cons]
      have hd : isWhitespaceChar d = false := by
        apply hl
        rw [← List.head?_reverse, hr]
        rfl
      rw [hd]
      simp
  rw [hdw2, List.reverse_reverse]

set_option maxRecDepth 8192 in
theorem cleanVoiceResponse_fenced (c : String)
    (hnb : ∀ ch ∈ c.data, ch ≠ backquote)
    (hh : ∀ ch, c.data.head? = some ch → isWhitespaceChar ch = false)
    (hl : ∀ ch, c.data.getLast? = some ch → isWhitespaceChar ch = false) :
    cleanVoiceResponse ("```json\n" ++ c ++ "\n```") = c := by
  cases hc : c.data with
  | nil =>
    have hcs : c = "" := by
      cases c with
      | mk data => simp at hc; rw [hc]
    rw [hcs]
    decide
  | cons ch rest =>
    have h1 : "```json\n".data = fenceJson ++ ['\n'] := by decide
    have h2 : "\n```".data = '\n' :: backquote :: backquote :: backquote :: [] := by decide
    have hdata : ("```json\n" ++ c ++ "\n```").data =
        fenceJson ++ '\n' :: (c.data ++ '\n' :: backquote :: backquote :: backquote :: []) := by
      rw [String.data_append, String.data_append, h1, h2]
      simp [List.append_assoc]
    have hlen : ("```json\n" ++ c ++ "\n```").data.length = c.data.length + 12 := by
      rw [hdata]; simp [fenceJson_eq]
    rw [cleanVoiceResponse, stripJsonFences, hlen, hdata]
    rw [show c.data.length + 12 = (c.data.length + 11) + 1 from rfl]
    rw [sjfa_match]
    rw [List.dropWhile_cons]
    simp only [show isWhitespaceChar '\n' = true from rfl, if_true]
    have hdw : (c.data ++ '\n' :: backquote :: backquote :: backquote :: []).dropWhile
        isWhitespaceChar = c.data ++ '\n' :: backquote :: backquote :: backquote :: [] := by
      rw [hc, List.cons_append, List.dropWhile_cons, hh ch (by rw [hc]; rfl)]
      simp
    rw [hdw]
    rw [sjfa_safe c.data hnb _ (by omega)]
    rw [stripTrailingFence]
    rw [show (c.data ++ '\n' :: backquote :: backquote :: backquote :: []).length =
      c.data.length + 4 by simp]
    rw [stfa_safe c.data hnb _ (by omega)]
    rw [trimChars_append_newline c.data (by rw [hc]; simp) hh hl]

/-! ### Voice-mode storage (C5) -/

theorem streamVoiceStep_eq (oracle : Oracle) (r k : Nat) (m : Model) (conv : Conversation) :
    streamVoiceStep oracle r k m conv =
      { conv with messages := conv.messages ++ [msgOfVoice m (oracle r k)]
                  responses := conv.responses ++ [respOfVoice m (oracle r k)] } := by
  cases ho : oracle r k <;> simp [streamVoiceStep, ho, msgOfVoice, respOfVoice]

theorem streamModelsVoice_eq (oracle : Oracle) (chunking : Chunking) (r : Nat) :
    ∀ (ms : List Model) (k : Nat) (conv : Conversation),
    streamModels oracle chunking "voice" r k ms conv =
      { conv with messages := conv.messages ++ roundListF msgOfVoice oracle r k ms
                  responses := conv.responses ++ roundListF respOfVoice oracle r k ms } := by
  intro ms
  induction ms with
  | nil => intro k conv; simp [streamModels, roundListF]
  | cons m tl ih =>
    intro k conv
    rw [streamModels]
    simp only [streamModelStep, if_pos rfl]
    rw [streamVoiceStep_eq, ih]
    simp [roundListF, List.append_assoc]

theorem streamRoundsVoice_eq (oracle : Oracle) (chunking : Chunking)
    (models : List Model) :
    ∀ (n r : Nat) (conv : Conversation),
    streamRounds oracle chunking "voice" models r n conv =
      { conv with messages := conv.messages ++ totalListF msgOfVoice oracle models r n
                  responses := conv.responses ++ totalListF respOfVoice oracle models r n } := by
  intro n
  induction n with
  | zero => intro r conv; simp [streamRounds, totalListF]
  | succ n ih =>
    intro r conv
    rw [streamRounds, streamModelsVoice_eq, ih]
    simp [totalListF, List.append_assoc]

set_option maxRecDepth 8192 in
/-- C5 counterexample.  First conjunct pair: the batch path stores the raw
fenced completion as the response text, not the cleaned text (its fence
cleaning exists only in development logging), so the claimed "cleaned text
is stored … in both batch and streaming delivery" fails on batch delivery.
Second pair: even where cleaning does run, it is not content-identity on
payloads ending in whitespace — content `X` followed by a no-break space
(which `\s`/`trim` strip) comes back as plain `X`.  Third pair: nor on
payloads containing a fence marker — the global `/\x60\x60\x60json\s*/g`
replacement fires inside the content `a\x60\x60\x60json b` and returns
`ab`.  The latter two force the whitespace- and backtick-freedom provisos
of the amended cleaning-identity clause. -/
theorem voice_batch_stores_raw :
    ((generateMultipleResponses fencedOracle [gptModel] [] 1).responses =
      [{ model := gptModel, response := fencedText, error := false }] ∧
    fencedText ≠ cleanVoiceResponse fencedText) ∧
    (cleanVoiceResponse ("```json\n" ++ "X\u00A0" ++ "\n```") = "X" ∧
    "X" ≠ "X\u00A0") ∧
    (cleanVoiceResponse ("```json\n" ++ "a```json b" ++ "\n```") = "ab" ∧
    "ab" ≠ "a```json b") := by
  exact ⟨⟨by decide, by decide⟩, ⟨by decide, by decide⟩, by decide, by decide⟩

/-- C5 (amended): cleaning a fence-wrapped voice payload yields exactly the
unfenced content (for content free of fence markers and surrounding
whitespace); in streaming voice delivery the cleaned text is what is stored
as the `ConversationResponse` text and appended, relabeled, to the message
history; batch delivery, by contrast, stores the raw completion text
unchanged. -/
theorem voice_cleaning_storage (oracle : Oracle) (chunking : Chunking)
    (topic : String) (models : List Model) (R r k : Nat) (m : Model) (c : String)
    (hnb : c.data.all (fun ch => ch != backquote) = true)
    (hh : c.data.head?.all (fun ch => !isWhitespaceChar ch) = true)
    (hl : c.data.getLast?.all (fun ch => !isWhitespaceChar ch) = true)
    (hr : r < R) (hk : models[k]? = some m) :
    cleanVoiceResponse ("```json\n" ++ c ++ "\n```") = c ∧
    (streamRun oracle chunking topic models "voice" R).responses[r * models.length + k]? =
      some (respOfVoice m (oracle (1 + r) k)) ∧
    (streamRun oracle chunking topic models
        "voice" R).messages[1 + (r * models.length + k)]? =
      some (msgOfVoice m (oracle (1 + r) k)) ∧
    (generateMultipleResponses oracle models [initialMessage topic models]
        R).responses[r * models.length + k]? =
      some (respOf m (oracle (1 + r) k)) := by
  refine ⟨?_, ?_, ?_, ?_⟩
  · apply cleanVoiceResponse_fenced
    · intro ch hch
      have := List.all_eq_true.mp hnb ch hch
      simpa using this
    · intro ch hch
      rw [hch] at hh
      simpa using hh
    · intro ch hch
      rw [hch] at hl
      simpa using hl
  · rw [streamRun, streamRoundsVoice_eq]
    simpa using totalListF_get respOfVoice oracle models R 1 r k m hr hk
  · rw [streamRun, streamRoundsVoice_eq]
    simp only []
    have hle : ([initialMessage topic models] : List Message).length ≤
        1 + (r * models.length + k) := by simp
    rw [List.getElem?_append_right hle]
    have hidx : 1 + (r * models.length + k) -
        ([initialMessage topic models] : List Message).length = r * models.length + k := by
      simp
    rw [hidx]
    exact totalListF_get msgOfVoice oracle models R 1 r k m hr hk
  · rw [generateMultipleResponses, runRounds_responses]
    simpa using totalListF_get respOf oracle models R 1 r k m hr hk

set_option maxRecDepth 8192 in
theorem voice_cleaning_storage_witness :
    cleanVoiceResponse ("```json\n" ++
        "\x7b\"input\":\"hi\",\"instructions\":\"calm\"\x7d" ++ "\n```") =
      "\x7b\"input\":\"hi\",\"instructions\":\"calm\"\x7d" ∧
    (streamRun fencedOracle hiChunking "t" [gptModel] "voice" 1).responses[0]? =
      some (respOfVoice gptModel (fencedOracle 1 0)) := by
  have h := voice_cleaning_storage fencedOracle hiChunking "t" [gptModel] 1 0 0 gptModel
    "\x7b\"input\":\"hi\",\"instructions\":\"calm\"\x7d"
    (by decide) (by decide) (by decide) (by decide) (by decide)
  exact ⟨h.1, by simpa using h.2.1⟩

/-- C6: `parseVoiceResponse` is total — it returns a `TTSResponse` for
every input string, the parse failure being consumed by the fallback.  When
the input parses as JSON carrying truthy `input` and `instructions` fields
it returns exactly those two field values (the sample object yields input
`hello`), and for every string the embedded `JSON.parse` rejects it returns
the entire raw string as input, paired with the fixed default delivery
instruction (exercised on `not json at all`). -/
theorem parseVoiceResponse_spec :
    (parseVoiceResponse "\x7b\"input\":\"hello\",\"instructions\":\"calm\"\x7d" =
      { input := .str "hello", instructions := .str "calm" }) ∧
    (∀ s parsed vi vj, jsonParse s = some parsed →
      getField parsed "input" = some vi → truthy vi = true →
      getField parsed "instructions" = some vj → truthy vj = true →
      parseVoiceResponse s = { input := vi, instructions := vj }) ∧
    (∀ s, jsonParse s = none →
      parseVoiceResponse s =
        { input := .str s, instructions := .str defaultVoiceInstructions }) ∧
    (jsonParse "not json at all" = none) := by
  refine ⟨rfl, ?_, ?_, rfl⟩
  · intro s parsed vi vj hp hi hti hj htj
    simp [parseVoiceResponse, hp, hi, hj, hti, htj]
  · intro s h
    simp [parseVoiceResponse, h]

theorem parseVoiceResponse_spec_witness :
    parseVoiceResponse "not json at all" =
      { input := .str "not json at all"
        instructions := .str defaultVoiceInstructions } :=
  parseVoiceResponse_spec.2.2.1 "not json at all" parseVoiceResponse_spec.2.2.2

/-! ### Case characterizations of the synchronous pipeline functions -/

theorem paq_cases (st : TTS) :
    paq st = st ∨
    ∃ a rest, st.isProcessingPlayback = false ∧ st.audioQueue = a :: rest ∧
      ttsIsPlaying st = false ∧
      paq st = { st with isProcessingPlayback := true, audioQueue := rest
                         currentAudio := some a
                         playPending := st.playPending ++ [a]
                         shiftedAudio := st.shiftedAudio ++ [a] } := by
  unfold paq
  by_cases h1 : st.isProcessingPlayback = true
  · left; simp [h1]
  · cases haq : st.audioQueue with
    | nil => left; simp [h1, haq]
    | cons a rest =>
      by_cases h2 : ttsIsPlaying st = true
      · left; simp [h1, haq, h2]
      · right
        refine ⟨a, rest, by simpa using h1, rfl, by simpa using h2, ?_⟩
        simp [h1, haq, h2]

theorem ptq_cases (st : TTS) :
    ptq st = st ∨
    ∃ it rest, st.isProcessingText = false ∧ st.textQueue = it :: rest ∧
      ptq st = { st with isProcessingText := true, textQueue := rest
                         converting := st.converting ++ [it] } := by
  unfold ptq
  by_cases h1 : st.isProcessingText = true
  · left; simp [h1]
  · cases htq : st.textQueue with
    | nil => left; simp [h1, htq]
    | cons it rest =>
      right
      refine ⟨it, rest, by simpa using h1, rfl, ?_⟩
      simp [h1, htq]

theorem tln_cases (st : TTS) :
    (st.textQueue = [] ∧ textLoopNext st = { st with isProcessingText := false }) ∨
    ∃ it rest, st.textQueue = it :: rest ∧
      textLoopNext st = { st with textQueue := rest
                                  converting := st.converting ++ [it] } := by
  unfold textLoopNext
  cases htq : st.textQueue with
  | nil => left; exact ⟨rfl, rfl⟩
  | cons it rest => right; exact ⟨it, rest, rfl, rfl⟩

/-! ### Field-transport lemmas -/

theorem TextInv_of_eq (st st' : TTS) (h1 : st'.textQueue = st.textQueue)
    (h2 : st'.converting = st.converting) (h3 : st'.isProcessingText = st.isProcessingText)
    (h4 : st'.arrivals = st.arrivals) (h5 : st'.doneText = st.doneText)
    (H : TextInv st) : TextInv st' := by
  refine ⟨?_, ?_, ?_⟩
  · rw [h4, h5, h2, h1]; exact H.harr
  · rw [h2]; exact H.hconv1
  · rw [h3, h2]; exact H.hflagT

theorem TextMid_of_eq (st st' : TTS) (h1 : st'.textQueue = st.textQueue)
    (h2 : st'.converting = st.converting) (h3 : st'.isProcessingText = st.isProcessingText)
    (h4 : st'.arrivals = st.arrivals) (h5 : st'.doneText = st.doneText)
    (H : TextMid st) : TextMid st' := by
  refine ⟨?_, ?_, ?_⟩
  · rw [h2]; exact H.hconv
  · rw [h3]; exact H.hflag
  · rw [h4, h5, h1]; exact H.harr

theorem AudioInv_of_eq (st st' : TTS)
    (h1 : st'.convertedLog = st.convertedLog) (h2 : st'.shiftedAudio = st.shiftedAudio)
    (h3 : st'.audioQueue = st.audioQueue) (h4 : st'.resolvedAudio = st.resolvedAudio)
    (h5 : st'.playPending = st.playPending) (h6 : st'.startLog = st.startLog)
    (h7 : st'.activeList = st.activeList)
    (h8 : st'.isProcessingPlayback = st.isProcessingPlayback)
    (h9 : st'.currentAudio = st.currentAudio) (h10 : st'.endLog = st.endLog)
    (H : AudioInv st) : AudioInv st' := by
  refine ⟨?_, ?_, ?_, ?_, ?_, ?_, ?_, ?_, ?_, ?_⟩
  · rw [h1, h2, h3]; exact H.hcs
  · rw [h2, h4, h5]; exact H.hsr
  · rw [h6, h4]; exact H.hstart
  · rw [h5]; exact H.hpend1
  · rw [h7]; exact H.hact1
  · rw [h5, h7, h8]; exact H.hpendact
  · rw [h7, h8]; exact H.hactflag
  · rw [h8, h9]; exact H.hflagP
  · rw [h9, h5, h7]; exact H.hcur
  · rw [h6, h10, h7]; exact H.hlog

theorem paq_text_eqs (st : TTS) :
    (paq st).textQueue = st.textQueue ∧ (paq st).converting = st.converting ∧
    (paq st).isProcessingText = st.isProcessingText ∧ (paq st).arrivals = st.arrivals ∧
    (paq st).doneText = st.doneText ∧ (paq st).convertedLog = st.convertedLog ∧
    (paq st).idCounter = st.idCounter ∧ (paq st).startLog = st.startLog ∧
    (paq st).endLog = st.endLog := by
  rcases paq_cases st with h | ⟨a, rest, _, _, _, h⟩ <;> rw [h] <;>
    exact ⟨rfl, rfl, rfl, rfl, rfl, rfl, rfl, rfl, rfl⟩

theorem ptq_audio_eqs (st : TTS) :
    (ptq st).convertedLog = st.convertedLog ∧ (ptq st).shiftedAudio = st.shiftedAudio ∧
    (ptq st).audioQueue = st.audioQueue ∧ (ptq st).resolvedAudio = st.resolvedAudio ∧
    (ptq st).playPending = st.playPending ∧ (ptq st).startLog = st.startLog ∧
    (ptq st).activeList = st.activeList ∧
    (ptq st).isProcessingPlayback = st.isProcessingPlayback ∧
    (ptq st).currentAudio = st.currentAudio ∧ (ptq st).endLog = st.endLog ∧
    (ptq st).doneText = st.doneText ∧ (ptq st).idCounter = st.idCounter := by
  rcases ptq_cases st with h | ⟨it, rest, _, _, h⟩ <;> rw [h] <;>
    exact ⟨rfl, rfl, rfl, rfl, rfl, rfl, rfl, rfl, rfl, rfl, rfl, rfl⟩

theorem tln_audio_eqs (st : TTS) :
    (textLoopNext st).convertedLog = st.convertedLog ∧
    (textLoopNext st).shiftedAudio = st.shiftedAudio ∧
    (textLoopNext st).audioQueue = st.audioQueue ∧
    (textLoopNext st).resolvedAudio = st.resolvedAudio ∧
    (textLoopNext st).playPending = st.playPending ∧
    (textLoopNext st).startLog = st.startLog ∧
    (textLoopNext st).activeList = st.activeList ∧
    (textLoopNext st).isProcessingPlayback = st.isProcessingPlayback ∧
    (textLoopNext st).currentAudio = st.currentAudio ∧
    (textLoopNext st).endLog = st.endLog ∧
    (textLoopNext st).doneText = st.doneText ∧
    (textLoopNext st).idCounter = st.idCounter := by
  rcases tln_cases st with ⟨_, h⟩ | ⟨it, rest, _, h⟩ <;> rw [h] <;>
    exact ⟨rfl, rfl, rfl, rfl, rfl, rfl, rfl, rfl, rfl, rfl, rfl, rfl⟩

/-! ### Preservation of the stop-free invariant -/

theorem ptq_text (st : TTS) (H : TextInv st) : TextInv (ptq st) := by
  rcases ptq_cases st with h | ⟨it, rest, hfl, htq, h⟩
  · rw [h]; exact H
  · rw [h]
    have hconv : st.converting = [] := by
      by_contra hc
      exact absurd (H.hflagT.mpr hc) (by simp [hfl])
    refine ⟨?_, ?_, ?_⟩
    · show st.arrivals = st.doneText ++ (st.converting ++ [it]) ++ rest
      rw [H.harr, hconv, htq]
      simp
    · show (st.converting ++ [it]).length ≤ 1
      rw [hconv]; simp
    · show true = true ↔ st.converting ++ [it] ≠ []
      simp

theorem tln_text_mid (st : TTS) (H : TextMid st) : TextInv (textLoopNext st) := by
  rcases tln_cases st with ⟨htq, h⟩ | ⟨it, rest, htq, h⟩
  · rw [h]
    refine ⟨?_, ?_, ?_⟩
    · show st.arrivals = st.doneText ++ st.converting ++ st.textQueue
      rw [H.harr, H.hconv, htq]
      simp
    · show st.converting.length ≤ 1
      rw [H.hconv]; simp
    · show false = true ↔ st.converting ≠ []
      rw [H.hconv]; simp
  · rw [h]
    refine ⟨?_, ?_, ?_⟩
    · show st.arrivals = st.doneText ++ (st.converting ++ [it]) ++ rest
      rw [H.harr, H.hconv, htq]
      simp
    · show (st.converting ++ [it]).length ≤ 1
      rw [H.hconv]; simp
    · show st.isProcessingText = true ↔ st.converting ++ [it] ≠ []
      rw [H.hflag, H.hconv]; simp

theorem paq_audio (st : TTS) (H : AudioInv st) : AudioInv (paq st) := by
  rcases paq_cases st with h | ⟨a, rest, hfl, haq, hpl, h⟩
  · rw [h]; exact H
  · rw [h]
    have hcn : st.currentAudio = none := by
      by_contra hc
      exact absurd (H.hflagP.mpr hc) (by simp [hfl])
    have hpend : st.playPending = [] := by
      by_cases hp : st.playPending = []
      · exact hp
      · exact absurd (H.hpendact hp).2 (by simp [hfl])
    have hact : st.activeList = [] := by
      by_cases ha : st.activeList = []
      · exact ha
      · exact absurd (H.hactflag ha) (by simp [hfl])
    refine ⟨?_, ?_, ?_, ?_, ?_, ?_, ?_, ?_, ?_, ?_⟩
    · show st.convertedLog = st.shiftedAudio ++ [a] ++ rest
      rw [H.hcs, haq]
      simp
    · show st.shiftedAudio ++ [a] = st.resolvedAudio ++ (st.playPending ++ [a])
      rw [H.hsr, hpend]
      simp
    · show List.Sublist st.startLog st.resolvedAudio
      exact H.hstart
    · show (st.playPending ++ [a]).length ≤ 1
      rw [hpend]; simp
    · exact H.hact1
    · intro _
      exact ⟨hact, rfl⟩
    · intro _
      rfl
    · simp
    · intro b hb
      left
      rw [hpend]
      simp at hb
      simp [hb]
    · intro b hb
      rcases H.hlog b hb with hE | hA
      · exact Or.inl hE
      · rw [hact] at hA
        simp at hA

theorem ptq_pipeline (st : TTS) (H : PipelineInv st) : PipelineInv (ptq st) := by
  obtain ⟨e1, e2, e3, e4, e5, e6, e7, e8, e9, e10, e11, e12⟩ := ptq_audio_eqs st
  refine ⟨ptq_text st H.text, AudioInv_of_eq st _ e1 e2 e3 e4 e5 e6 e7 e8 e9 e10 H.audio, ?_⟩
  rw [e1, e11]
  exact H.cross

theorem paq_pipeline (st : TTS) (H : PipelineInv st) : PipelineInv (paq st) := by
  obtain ⟨e1, e2, e3, e4, e5, e6, e7, e8, e9⟩ := paq_text_eqs st
  refine ⟨TextInv_of_eq st _ e1 e2 e3 e4 e5 H.text, paq_audio st H.audio, ?_⟩
  rw [e6, e5]
  exact H.cross

theorem paq_mid (st : TTS) (Hm : TextMid st) (Ha : AudioInv st)
    (Hc : List.Sublist st.convertedLog st.doneText) :
    TextMid (paq st) ∧ AudioInv (paq st) ∧
      List.Sublist (paq st).convertedLog (paq st).doneText := by
  obtain ⟨e1, e2, e3, e4, e5, e6, e7, e8, e9⟩ := paq_text_eqs st
  refine ⟨TextMid_of_eq st _ e1 e2 e3 e4 e5 Hm, paq_audio st Ha, ?_⟩
  rw [e6, e5]
  exact Hc

theorem tln_finish (st : TTS) (Hm : TextMid st) (Ha : AudioInv st)
    (Hc : List.Sublist st.convertedLog st.doneText) :
    PipelineInv (textLoopNext st) := by
  obtain ⟨e1, e2, e3, e4, e5, e6, e7, e8, e9, e10, e11, e12⟩ := tln_audio_eqs st
  refine ⟨tln_text_mid st Hm, AudioInv_of_eq st _ e1 e2 e3 e4 e5 e6 e7 e8 e9 e10 Ha, ?_⟩
  rw [e1, e11]
  exact Hc

theorem singleton_of_len_le_one {l : List Nat} {a : Nat} (h1 : l.length ≤ 1)
    (h2 : a ∈ l) : l = [a] := by
  cases l with
  | nil => simp at h2
  | cons b tl =>
    cases tl with
    | nil =>
      simp at h2
      rw [h2]
    | cons c tl2 => simp at h1

theorem ttsStep_pipeline (st st' : TTS) (l : TLabel) (hl : l ≠ TLabel.stop)
    (h : ttsStep st l = some st') (H : PipelineInv st) : PipelineInv st' := by
  cases l with
  | stop => exact absurd rfl hl
  | arrive =>
    simp only [ttsStep, Option.some.injEq] at h
    subst h
    apply paq_pipeline
    apply ptq_pipeline
    refine ⟨⟨?_, H.text.hconv1, H.text.hflagT⟩,
      AudioInv_of_eq st _ rfl rfl rfl rfl rfl rfl rfl rfl rfl rfl H.audio, H.cross⟩
    show st.arrivals ++ [st.idCounter] =
      st.doneText ++ st.converting ++ (st.textQueue ++ [st.idCounter])
    rw [H.text.harr]
    simp
  | convertOk id =>
    simp only [ttsStep] at h
    split at h
    case isFalse => simp at h
    case isTrue hc =>
      rw [Option.some.injEq] at h
      subst h
      have hmem : id ∈ st.converting := by simpa using hc
      have hconv : st.converting = [id] := singleton_of_len_le_one H.text.hconv1 hmem
      have hflag : st.isProcessingText = true := H.text.hflagT.mpr (by rw [hconv]; simp)
      have hmid : TextMid { st with
          converting := st.converting.erase id
          doneText := st.doneText ++ [id]
          convertedLog := st.convertedLog ++ [id]
          audioQueue := st.audioQueue ++ [id] } := by
        refine ⟨?_, hflag, ?_⟩
        · show st.converting.erase id = []
          rw [hconv]
          simp
        · show st.arrivals = st.doneText ++ [id] ++ st.textQueue
          rw [H.text.harr, hconv]
      have haud : AudioInv { st with
          converting := st.converting.erase id
          doneText := st.doneText ++ [id]
          convertedLog := st.convertedLog ++ [id]
          audioQueue := st.audioQueue ++ [id] } := by
        refine ⟨?_, H.audio.hsr, H.audio.hstart, H.audio.hpend1, H.audio.hact1,
          H.audio.hpendact, H.audio.hactflag, H.audio.hflagP, H.audio.hcur, H.audio.hlog⟩
        show st.convertedLog ++ [id] = st.shiftedAudio ++ (st.audioQueue ++ [id])
        rw [H.audio.hcs]
        simp
      have hcross : List.Sublist (st.convertedLog ++ [id]) (st.doneText ++ [id]) :=
        List.Sublist.append H.cross (List.Sublist.refl [id])
      obtain ⟨m2, a2, c2⟩ := paq_mid _ hmid haud hcross
      exact tln_finish _ m2 a2 c2
  | convertFail id =>
    simp only [ttsStep] at h
    split at h
    case isFalse => simp at h
    case isTrue hc =>
      rw [Option.some.injEq] at h
      subst h
      have hmem : id ∈ st.converting := by simpa using hc
      have hconv : st.converting = [id] := singleton_of_len_le_one H.text.hconv1 hmem
      have hflag : st.isProcessingText = true := H.text.hflagT.mpr (by rw [hconv]; simp)
      apply tln_finish
      · refine ⟨?_, hflag, ?_⟩
        · show st.converting.erase id = []
          rw [hconv]
          simp
        · show st.arrivals = st.doneText ++ [id] ++ st.textQueue
          rw [H.text.harr, hconv]
      · refine ⟨H.audio.hcs, H.audio.hsr, H.audio.hstart, H.audio.hpend1, H.audio.hact1,
          H.audio.hpendact, H.audio.hactflag, H.audio.hflagP, H.audio.hcur, ?_⟩
        intro a ha
        rcases H.audio.hlog a ha with hE | hA
        · exact Or.inl (List.mem_append_left _ hE)
        · exact Or.inr hA
      · exact H.cross.trans (List.sublist_append_left _ _)
  | playStarted id =>
    simp only [ttsStep] at h
    split at h
    case isFalse => simp at h
    case isTrue hc =>
      rw [Option.some.injEq] at h
      subst h
      rw [Bool.and_eq_true] at hc
      have hmem : id ∈ st.playPending := by simpa using hc.1
      have hcur : st.currentAudio = some id := by simpa using hc.2
      have hpend : st.playPending = [id] := singleton_of_len_le_one H.audio.hpend1 hmem
      obtain ⟨hact, hflag⟩ := H.audio.hpendact (by rw [hpend]; simp)
      refine ⟨TextInv_of_eq st _ rfl rfl rfl rfl rfl H.text, ?_, H.cross⟩
      refine ⟨H.audio.hcs, ?_, ?_, ?_, ?_, ?_, ?_, H.audio.hflagP, ?_, ?_⟩
      · show st.shiftedAudio = st.resolvedAudio ++ [id] ++ st.playPending.erase id
        rw [H.audio.hsr, hpend]
        simp
      · exact List.Sublist.append H.audio.hstart (List.Sublist.refl [id])
      · show (st.playPending.erase id).length ≤ 1
        rw [hpend]
        simp
      · show (st.activeList ++ [id]).length ≤ 1
        rw [hact]
        simp
      · intro hp
        rw [hpend] at hp
        simp at hp
      · intro _
        exact hflag
      · intro a ha
        rw [hcur] at ha
        rw [Option.some.injEq] at ha
        subst ha
        right
        simp
      · intro a ha
        rcases List.mem_append.mp ha with hOld | hNew
        · rcases H.audio.hlog a hOld with hE | hA
          · exact Or.inl hE
          · rw [hact] at hA
            simp at hA
        · right
          simp at hNew
          simp [hNew]
  | playEnded id =>
    simp only [ttsStep] at h
    split at h
    case isFalse => simp at h
    case isTrue hc =>
      rw [Option.some.injEq] at h
      subst h
      have hmem : id ∈ st.activeList := by simpa using hc
      have hact : st.activeList = [id] := singleton_of_len_le_one H.audio.hact1 hmem
      have hpend : st.playPending = [] := by
        by_cases hp : st.playPending = []
        · exact hp
        · have := (H.audio.hpendact hp).1
          rw [this] at hmem
          simp at hmem
      apply paq_pipeline
      refine ⟨TextInv_of_eq st _ rfl rfl rfl rfl rfl H.text, ?_, H.cross⟩
      refine ⟨H.audio.hcs, H.audio.hsr, H.audio.hstart, H.audio.hpend1, ?_, ?_, ?_, ?_,
        ?_, ?_⟩
      · show (st.activeList.erase id).length ≤ 1
        rw [hact]
        simp
      · intro hp
        exact absurd hpend hp
      · intro ha
        rw [hact] at ha
        simp at ha
      · simp
      · intro a ha
        simp at ha
      · intro a ha
        rcases H.audio.hlog a ha with hE | hA
        · exact Or.inl (List.mem_append_left _ hE)
        · rw [hact] at hA
          simp at hA
          subst hA
          exact Or.inl (List.mem_append_right _ (by simp))
  | playError id =>
    simp only [ttsStep] at h
    split at h
    case isFalse => simp at h
    case isTrue hc =>
      rw [Option.some.injEq] at h
      subst h
      have hmem : id ∈ st.activeList := by simpa using hc
      have hact : st.activeList = [id] := singleton_of_len_le_one H.audio.hact1 hmem
      have hpend : st.playPending = [] := by
        by_cases hp : st.playPending = []
        · exact hp
        · have := (H.audio.hpendact hp).1
          rw [this] at hmem
          simp at hmem
      apply paq_pipeline
      refine ⟨TextInv_of_eq st _ rfl rfl rfl rfl rfl H.text, ?_, H.cross⟩
      refine ⟨H.audio.hcs, H.audio.hsr, H.audio.hstart, H.audio.hpend1, ?_, ?_, ?_, ?_,
        ?_, ?_⟩
      · show (st.activeList.erase id).length ≤ 1
        rw [hact]
        simp
      · intro hp
        exact absurd hpend hp
      · intro ha
        rw [hact] at ha
        simp at ha
      · simp
      · intro a ha
        simp at ha
      · intro a ha
        rcases H.audio.hlog a ha with hE | hA
        · exact Or.inl (List.mem_append_left _ hE)
        · rw [hact] at hA
          simp at hA
          subst hA
          exact Or.inl (List.mem_append_right _ (by simp))
  | playRejected id =>
    simp only [ttsStep] at h
    split at h
    case isFalse => simp at h
    case isTrue hc =>
      rw [Option.some.injEq] at h
      subst h
      have hmem : id ∈ st.playPending := by simpa using hc
      have hpend : st.playPending = [id] := singleton_of_len_le_one H.audio.hpend1 hmem
      obtain ⟨hact, hflag⟩ := H.audio.hpendact (by rw [hpend]; simp)
      apply paq_pipeline
      refine ⟨TextInv_of_eq st _ rfl rfl rfl rfl rfl H.text, ?_, H.cross⟩
      refine ⟨H.audio.hcs, ?_, ?_, ?_, ?_, ?_, ?_, ?_, ?_, ?_⟩
      · show st.shiftedAudio = st.resolvedAudio ++ [id] ++ st.playPending.erase id
        rw [H.audio.hsr, hpend]
        simp
      · exact H.audio.hstart.trans (List.sublist_append_left _ _)
      · show (st.playPending.erase id).length ≤ 1
        rw [hpend]
        simp
      · exact H.audio.hact1
      · intro hp
        rw [hpend] at hp
        simp at hp
      · intro ha
        rw [hact] at ha
        simp at ha
      · simp
      · intro a ha
        simp at ha
      · intro a ha
        rcases H.audio.hlog a ha with hE | hA
        · exact Or.inl (List.mem_append_left _ hE)
        · rw [hact] at hA
          simp at hA

theorem initTTS_pipeline : PipelineInv initTTS := by
  refine ⟨⟨rfl, by simp [initTTS], by simp [initTTS]⟩,
    ⟨rfl, rfl, List.nil_sublist _, by simp [initTTS], by simp [initTTS], ?_, ?_, ?_, ?_, ?_⟩,
    List.nil_sublist _⟩
  · intro hp; exact absurd rfl hp
  · intro hp; exact absurd rfl hp
  · simp [initTTS]
  · intro a ha; simp [initTTS] at ha
  · intro a ha; simp [initTTS] at ha

theorem ttsRun_pipeline : ∀ (ls : List TLabel) (st st' : TTS),
    ttsRun st ls = some st' → (∀ l ∈ ls, l ≠ TLabel.stop) →
    PipelineInv st → PipelineInv st' := by
  intro ls
  induction ls with
  | nil =>
    intro st st' h _ H
    simp [ttsRun] at h
    rw [← h]
    exact H
  | cons l rest ih =>
    intro st st' h hns H
    rw [ttsRun] at h
    cases hstep : ttsStep st l with
    | none => rw [hstep] at h; simp at h
    | some st1 =>
      rw [hstep] at h
      exact ih st1 st' h (fun x hx => hns x (List.mem_cons_of_mem _ hx))
        (ttsStep_pipeline st st1 l (hns l (List.mem_cons_self _ _)) hstep H)

/-- C8: along every stop-free run of the playback pipeline, playback start
order is a subsequence of the arrival order of the source responses — for
responses arriving A, B, C playback can only start A, then B, then C, never
C before B, whatever the per-item synthesis latency; at most one audio item
is playing at any instant; and a further item can begin playing only when
every item that ever started has already fired its terminal event (ended,
error, or autoplay rejection — each of which fires `onEnd`). -/
theorem playback_pipeline_order (ls : List TLabel) (st : TTS)
    (hrun : ttsRun initTTS ls = some st) (hns : ∀ l ∈ ls, l ≠ TLabel.stop) :
    List.Sublist st.startLog st.arrivals ∧
    st.activeList.length ≤ 1 ∧
    (∀ b st', ttsStep st (TLabel.playStarted b) = some st' →
      ∀ a ∈ st.startLog, a ∈ st.endLog) := by
  have H := ttsRun_pipeline ls initTTS st hrun hns initTTS_pipeline
  refine ⟨?_, H.audio.hact1, ?_⟩
  · have h1 : List.Sublist st.startLog st.resolvedAudio := H.audio.hstart
    have h2 : List.Sublist st.resolvedAudio st.shiftedAudio := by
      rw [H.audio.hsr]
      exact List.sublist_append_left _ _
    have h3 : List.Sublist st.shiftedAudio st.convertedLog := by
      rw [H.audio.hcs]
      exact List.sublist_append_left _ _
    have h5 : List.Sublist st.doneText st.arrivals := by
      rw [H.text.harr]
      exact (List.sublist_append_left _ _).trans (List.sublist_append_left _ _)
    exact h1.trans (h2.trans (h3.trans (H.cross.trans h5)))
  · intro b st' hstep a ha
    simp only [ttsStep] at hstep
    split at hstep
    case isFalse => simp at hstep
    case isTrue hcnd =>
      rw [Bool.and_eq_true] at hcnd
      have hb : b ∈ st.playPending := by simpa using hcnd.1
      have hpa := H.audio.hpendact (by
        intro he
        rw [he] at hb
        simp at hb)
      rcases H.audio.hlog a ha with hE | hA
      · exact hE
      · rw [hpa.1] at hA
        simp at hA

set_option maxRecDepth 8192 in
theorem playback_pipeline_order_witness :
    List.Sublist demoFinal.startLog demoFinal.arrivals ∧
    demoFinal.activeList.length ≤ 1 ∧
    (∀ b st', ttsStep demoFinal (TLabel.playStarted b) = some st' →
      ∀ a ∈ demoFinal.startLog, a ∈ demoFinal.endLog) :=
  playback_pipeline_order demoLabels demoFinal (by decide) (by decide)

/-! ### Ownership accounting across all labels (C9) -/

theorem paq_allIds (st : TTS) (x : Nat) :
    List.count x (allIds (paq st)) = List.count x (allIds st) := by
  rcases paq_cases st with h | ⟨a, rest, _, haq, _, h⟩
  · rw [h]
  · rw [h]
    simp only [allIds, haq]
    simp [List.count_append, List.count_cons]
    omega

theorem ptq_allIds (st : TTS) (x : Nat) :
    List.count x (allIds (ptq st)) = List.count x (allIds st) := by
  rcases ptq_cases st with h | ⟨it, rest, _, htq, h⟩
  · rw [h]
  · rw [h]
    simp only [allIds, htq]
    simp [List.count_append, List.count_cons]
    omega

theorem tln_allIds (st : TTS) (x : Nat) :
    List.count x (allIds (textLoopNext st)) = List.count x (allIds st) := by
  rcases tln_cases st with ⟨htq, h⟩ | ⟨it, rest, htq, h⟩
  · rw [h]
    simp [allIds]
  · rw [h]
    simp only [allIds, htq]
    simp [List.count_append, List.count_cons]
    omega

theorem count_erase_of_mem {l : List Nat} {a : Nat} (x : Nat) :
    List.count x (l.erase a) = List.count x l - (if a = x then 1 else 0) := by
  rw [List.count_erase]
  simp [beq_iff_eq]

theorem paq_idCounter (st : TTS) : (paq st).idCounter = st.idCounter :=
  (paq_text_eqs st).2.2.2.2.2.2.1

theorem paq_startLog (st : TTS) : (paq st).startLog = st.startLog :=
  (paq_text_eqs st).2.2.2.2.2.2.2.1

theorem paq_endLog (st : TTS) : (paq st).endLog = st.endLog :=
  (paq_text_eqs st).2.2.2.2.2.2.2.2

theorem ptq_idCounter (st : TTS) : (ptq st).idCounter = st.idCounter :=
  (ptq_audio_eqs st).2.2.2.2.2.2.2.2.2.2.2

theorem ptq_startLog (st : TTS) : (ptq st).startLog = st.startLog :=
  (ptq_audio_eqs st).2.2.2.2.2.1

theorem ptq_endLog (st : TTS) : (ptq st).endLog = st.endLog :=
  (ptq_audio_eqs st).2.2.2.2.2.2.2.2.2.1

theorem tln_idCounter (st : TTS) : (textLoopNext st).idCounter = st.idCounter :=
  (tln_audio_eqs st).2.2.2.2.2.2.2.2.2.2.2

theorem tln_startLog (st : TTS) : (textLoopNext st).startLog = st.startLog :=
  (tln_audio_eqs st).2.2.2.2.2.1

theorem tln_endLog (st : TTS) : (textLoopNext st).endLog = st.endLog :=
  (tln_audio_eqs st).2.2.2.2.2.2.2.2.2.1

/-- Frame of one transition: the counted ownership of every id can only
drop, except that an arrival introduces the fresh id; the id counter never
decreases and advances exactly on arrival; each log grows by at most one
entry, always an owned id. -/
theorem ttsStep_frame (st st' : TTS) (l : TLabel) (h : ttsStep st l = some st') :
    (∀ x, List.count x (allIds st') ≤ List.count x (allIds st) +
      (if l = TLabel.arrive ∧ x = st.idCounter then 1 else 0)) ∧
    st.idCounter ≤ st'.idCounter ∧
    (l = TLabel.arrive → st'.idCounter = st.idCounter + 1) ∧
    (l ≠ TLabel.arrive → st'.idCounter = st.idCounter) ∧
    (st'.startLog = st.startLog ∨
      ∃ a, a ∈ allIds st ∧ st'.startLog = st.startLog ++ [a]) ∧
    (st'.endLog = st.endLog ∨ ∃ a, a ∈ allIds st ∧ st'.endLog = st.endLog ++ [a]) := by
  cases l with
  | arrive =>
    simp only [ttsStep, Option.some.injEq] at h
    subst h
    refine ⟨?_, ?_, ?_, ?_, ?_, ?_⟩
    · intro x
      rw [paq_allIds, ptq_allIds]
      simp only [allIds]
      simp [List.count_append, List.count_cons]
      all_goals by_cases hx : x = st.idCounter
      all_goals first
      | (subst hx; simp; try omega)
      | (simp [hx, Ne.symm hx]; try omega)
    · rw [paq_idCounter, ptq_idCounter]
      show st.idCounter ≤ st.idCounter + 1
      omega
    · intro _
      rw [paq_idCounter, ptq_idCounter]
    · intro hne
      exact absurd rfl hne
    · left
      rw [paq_startLog, ptq_startLog]
    · left
      rw [paq_endLog, ptq_endLog]
  | convertOk id =>
    simp only [ttsStep] at h
    split at h
    case isFalse => simp at h
    case isTrue hc =>
      rw [Option.some.injEq] at h
      subst h
      have hmem : id ∈ st.converting := by simpa using hc
      have hcnt : 0 < List.count id st.converting := List.count_pos_iff.mpr hmem
      refine ⟨?_, ?_, ?_, ?_, ?_, ?_⟩
      · intro x
        rw [tln_allIds, paq_allIds]
        simp only [allIds]
        simp [List.count_append, List.count_cons, count_erase_of_mem x]
        all_goals by_cases hx : id = x
        all_goals first
        | (subst hx; simp; try omega)
        | (simp [hx]; try omega)
      · rw [tln_idCounter, paq_idCounter]
      · intro habs
        exact absurd habs (by simp)
      · intro _
        rw [tln_idCounter, paq_idCounter]
      · left
        rw [tln_startLog, paq_startLog]
      · left
        rw [tln_endLog, paq_endLog]
  | convertFail id =>
    simp only [ttsStep] at h
    split at h
    case isFalse => simp at h
    case isTrue hc =>
      rw [Option.some.injEq] at h
      subst h
      have hmem : id ∈ st.converting := by simpa using hc
      have hmemAll : id ∈ allIds st := by
        simp [allIds, hmem]
      refine ⟨?_, ?_, ?_, ?_, ?_, ?_⟩
      · intro x
        rw [tln_allIds]
        simp only [allIds]
        simp [List.count_append, count_erase_of_mem x]
        all_goals by_cases hx : id = x
        all_goals first
        | (subst hx; simp; try omega)
        | (simp [hx]; try omega)
      · rw [tln_idCounter]
      · intro habs
        exact absurd habs (by simp)
      · intro _
        rw [tln_idCounter]
      · left
        rw [tln_startLog]
      · right
        refine ⟨id, hmemAll, ?_⟩
        rw [tln_endLog]
  | playStarted id =>
    simp only [ttsStep] at h
    split at h
    case isFalse => simp at h
    case isTrue hc =>
      rw [Option.some.injEq] at h
      subst h
      rw [Bool.and_eq_true] at hc
      have hmem : id ∈ st.playPending := by simpa using hc.1
      have hcnt : 0 < List.count id st.playPending := List.count_pos_iff.mpr hmem
      have hmemAll : id ∈ allIds st := by
        simp [allIds, hmem]
      refine ⟨?_, le_refl _, ?_, fun _ => rfl, ?_, Or.inl rfl⟩
      · intro x
        simp only [allIds]
        simp [List.count_append, List.count_cons, count_erase_of_mem x]
        all_goals by_cases hx : id = x
        all_goals first
        | (subst hx; simp; try omega)
        | (simp [hx]; try omega)
      · intro habs
        exact absurd habs (by simp)
      · right
        exact ⟨id, hmemAll, rfl⟩
  | playEnded id =>
    simp only [ttsStep, terminalCleanup] at h
    split at h
    case isFalse => simp at h
    case isTrue hc =>
      rw [Option.some.injEq] at h
      subst h
      have hmem : id ∈ st.activeList := by simpa using hc
      have hmemAll : id ∈ allIds st := by
        simp [allIds, hmem]
      refine ⟨?_, ?_, ?_, ?_, ?_, ?_⟩
      · intro x
        rw [paq_allIds]
        simp only [allIds]
        simp [List.count_append, count_erase_of_mem x]
        all_goals by_cases hx : id = x
        all_goals first
        | (subst hx; simp; try omega)
        | (simp [hx]; try omega)
      · rw [paq_idCounter]
      · intro habs
        exact absurd habs (by simp)
      · intro _
        rw [paq_idCounter]
      · left
        rw [paq_startLog]
      · right
        refine ⟨id, hmemAll, ?_⟩
        rw [paq_endLog]
  | playError id =>
    simp only [ttsStep, terminalCleanup] at h
    split at h
    case isFalse => simp at h
    case isTrue hc =>
      rw [Option.some.injEq] at h
      subst h
      have hmem : id ∈ st.activeList := by simpa using hc
      have hmemAll : id ∈ allIds st := by
        simp [allIds, hmem]
      refine ⟨?_, ?_, ?_, ?_, ?_, ?_⟩
      · intro x
        rw [paq_allIds]
        simp only [allIds]
        simp [List.count_append, count_erase_of_mem x]
        all_goals by_cases hx : id = x
        all_goals first
        | (subst hx; simp; try omega)
        | (simp [hx]; try omega)
      · rw [paq_idCounter]
      · intro habs
        exact absurd habs (by simp)
      · intro _
        rw [paq_idCounter]
      · left
        rw [paq_startLog]
      · right
        refine ⟨id, hmemAll, ?_⟩
        rw [paq_endLog]
  | playRejected id =>
    simp only [ttsStep] at h
    split at h
    case isFalse => simp at h
    case isTrue hc =>
      rw [Option.some.injEq] at h
      subst h
      have hmem : id ∈ st.playPending := by simpa using hc
      have hmemAll : id ∈ allIds st := by
        simp [allIds, hmem]
      refine ⟨?_, ?_, ?_, ?_, ?_, ?_⟩
      · intro x
        rw [paq_allIds]
        simp only [allIds]
        simp [List.count_append, count_erase_of_mem x]
        all_goals by_cases hx : id = x
        all_goals first
        | (subst hx; simp; try omega)
        | (simp [hx]; try omega)
      · rw [paq_idCounter]
      · intro habs
        exact absurd habs (by simp)
      · intro _
        rw [paq_idCounter]
      · left
        rw [paq_startLog]
      · right
        refine ⟨id, hmemAll, ?_⟩
        rw [paq_endLog]
  | stop =>
    simp only [ttsStep, Option.some.injEq] at h
    subst h
    refine ⟨?_, le_refl _, ?_, fun _ => rfl, Or.inl rfl, Or.inl rfl⟩
    · intro x
      simp only [allIds]
      cases hca : st.currentAudio with
      | none =>
        simp [List.count_append]
        omega
      | some a =>
        simp [List.count_append, count_erase_of_mem x]
        all_goals by_cases hx : a = x
        all_goals first
        | (subst hx; simp; try omega)
        | (simp [hx]; try omega)
    · intro habs
      exact absurd habs (by simp)

theorem ttsStep_idinv (st st' : TTS) (l : TLabel) (h : ttsStep st l = some st')
    (H : IdInv st) : IdInv st' := by
  obtain ⟨hcnt, hmono, harr1, _, _, _⟩ := ttsStep_frame st st' l h
  constructor
  · rw [List.nodup_iff_count_le_one]
    intro x
    have h1 := hcnt x
    have h2 : List.count x (allIds st) ≤ 1 := List.nodup_iff_count_le_one.mp H.nodup x
    by_cases hx : l = TLabel.arrive ∧ x = st.idCounter
    · have hzero : List.count x (allIds st) = 0 := by
        by_contra hnz
        have hmem : x ∈ allIds st := List.count_pos_iff.mp (Nat.pos_of_ne_zero hnz)
        have hlt := H.bound x hmem
        have hx2 := hx.2
        omega
      rw [if_pos hx] at h1
      omega
    · rw [if_neg hx] at h1
      omega
  · intro x hx2
    have hpos : 0 < List.count x (allIds st') := List.count_pos_iff.mpr hx2
    have h1 := hcnt x
    by_cases hl : l = TLabel.arrive ∧ x = st.idCounter
    · have hidc := harr1 hl.1
      have hx2 := hl.2
      omega
    · rw [if_neg hl] at h1
      have hmem : x ∈ allIds st := List.count_pos_iff.mp (by omega)
      have hb := H.bound x hmem
      omega

theorem initTTS_idinv : IdInv initTTS := by
  constructor
  · simp [allIds, initTTS]
  · intro id hid
    simp [allIds, initTTS] at hid

theorem ttsRun_idinv : ∀ (ls : List TLabel) (st st' : TTS),
    ttsRun st ls = some st' → IdInv st → IdInv st' := by
  intro ls
  induction ls with
  | nil =>
    intro st st' h H
    simp [ttsRun] at h
    rw [← h]
    exact H
  | cons l rest ih =>
    intro st st' h H
    rw [ttsRun] at h
    cases hstep : ttsStep st l with
    | none => rw [hstep] at h; simp at h
    | some st1 =>
      rw [hstep] at h
      exact ih st1 st' h (ttsStep_idinv st st1 l hstep H)

theorem count_append_one (x a : Nat) (l : List Nat) (h : a ≠ x) :
    List.count x (l ++ [a]) = List.count x l := by
  rw [List.count_append]
  have : List.count x [a] = 0 := by
    rw [List.count_eq_zero]
    intro hmem
    simp at hmem
    exact h hmem.symm
  omega

/-- No resurrection: an id that is below the counter and owned by no
structure never re-enters any structure and never gains a log entry. -/
theorem ttsRun_frame : ∀ (ls : List TLabel) (st st' : TTS),
    ttsRun st ls = some st' → ∀ x, x < st.idCounter → x ∉ allIds st →
    x ∉ allIds st' ∧ List.count x st'.startLog = List.count x st.startLog ∧
      List.count x st'.endLog = List.count x st.endLog := by
  intro ls
  induction ls with
  | nil =>
    intro st st' h x hlt hnm
    simp [ttsRun] at h
    rw [← h]
    exact ⟨hnm, rfl, rfl⟩
  | cons l rest ih =>
    intro st st' h x hlt hnm
    rw [ttsRun] at h
    cases hstep : ttsStep st l with
    | none => rw [hstep] at h; simp at h
    | some st1 =>
      rw [hstep] at h
      obtain ⟨hcnt, hmono, _, _, hsl, hel⟩ := ttsStep_frame st st1 l hstep
      have hz : List.count x (allIds st) = 0 := by
        by_contra hnz
        exact hnm (List.count_pos_iff.mp (Nat.pos_of_ne_zero hnz))
      have hx1 : x ∉ allIds st1 := by
        intro hmem
        have hpos : 0 < List.count x (allIds st1) := List.count_pos_iff.mpr hmem
        have h1 := hcnt x
        by_cases hl : l = TLabel.arrive ∧ x = st.idCounter
        · have hx2 := hl.2
          omega
        · rw [if_neg hl] at h1
          omega
      have hlt1 : x < st1.idCounter := lt_of_lt_of_le hlt hmono
      obtain ⟨ha, hb, hc⟩ := ih st1 st' h x hlt1 hx1
      refine ⟨ha, ?_, ?_⟩
      · rw [hb]
        rcases hsl with he | ⟨a, hamem, he⟩
        · rw [he]
        · rw [he]
          exact count_append_one x a st.startLog (by
            intro hax
            rw [hax] at hamem
            exact hnm hamem)
      · rw [hc]
        rcases hel with he | ⟨a, hamem, he⟩
        · rw [he]
        · rw [he]
          exact count_append_one x a st.endLog (by
            intro hax
            rw [hax] at hamem
            exact hnm hamem)

/-- C9: after `stopCurrentAudio` returns, both queues are empty, both
worker busy-flags are false, every queued prepared-audio URL has been
revoked, and along any continuation of the run neither `onStart` nor
`onEnd` ever fires again for an item that was queued (in either queue) at
the moment of the stop, nor for the item that was playing. -/
theorem stop_clears_pipeline (pre post : List TLabel) (st st1 st2 : TTS)
    (hpre : ttsRun initTTS pre = some st)
    (hstop : ttsStep st TLabel.stop = some st1)
    (hpost : ttsRun st1 post = some st2) :
    st1.textQueue = [] ∧ st1.audioQueue = [] ∧
    st1.isProcessingText = false ∧ st1.isProcessingPlayback = false ∧
    (∀ id ∈ st.audioQueue, id ∈ st1.released) ∧
    (∀ id, id ∈ st.textQueue ∨ id ∈ st.audioQueue ∨
        (st.currentAudio = some id ∧ id ∈ st.activeList) →
      List.count id st2.startLog = List.count id st.startLog ∧
      List.count id st2.endLog = List.count id st.endLog) := by
  have Hid : IdInv st := ttsRun_idinv pre initTTS st hpre initTTS_idinv
  simp only [ttsStep, Option.some.injEq] at hstop
  subst hstop
  refine ⟨rfl, rfl, rfl, rfl, ?_, ?_⟩
  · intro id hid
    show id ∈ st.released ++ st.audioQueue
    exact List.mem_append_right _ hid
  · intro id hid
    have hnodup : List.count id (allIds st) ≤ 1 :=
      List.nodup_iff_count_le_one.mp Hid.nodup id
    have hmemAll : id ∈ allIds st := by
      simp only [allIds]
      rcases hid with h1 | h2 | h3
      · simp [h1]
      · simp [h2]
      · simp [h3.2]
    have hlt : id < st.idCounter := Hid.bound id hmemAll
    have hdecomp : List.count id (allIds st) =
        List.count id st.textQueue + List.count id st.audioQueue +
        List.count id st.converting + List.count id st.playPending +
        List.count id st.activeList := by
      simp [allIds, List.count_append]
      omega
    have hnotin : id ∉ allIds
        { st with
          currentAudio := none
          activeList := match st.currentAudio with
            | none => st.activeList
            | some a => st.activeList.erase a
          textQueue := []
          released := st.released ++ st.audioQueue
          audioQueue := []
          isProcessingText := false
          isProcessingPlayback := false } := by
      intro hmem
      have hpos : 0 < List.count id (allIds
          { st with
            currentAudio := none
            activeList := match st.currentAudio with
              | none => st.activeList
              | some a => st.activeList.erase a
            textQueue := []
            released := st.released ++ st.audioQueue
            audioQueue := []
            isProcessingText := false
            isProcessingPlayback := false }) := List.count_pos_iff.mpr hmem
      rcases hid with h1 | h2 | h3
      · have hc1 : 0 < List.count id st.textQueue := List.count_pos_iff.mpr h1
        revert hpos
        simp only [allIds]
        cases hca : st.currentAudio with
        | none =>
          simp only [List.count_append, List.nil_append, List.count_nil]
          omega
        | some a =>
          simp only [List.count_append, List.nil_append, List.count_nil]
          intro hpos
          have hle : List.count id (st.activeList.erase a) ≤
              List.count id st.activeList := by
            rw [count_erase_of_mem id]
            exact Nat.sub_le _ _
          omega
      · have hc1 : 0 < List.count id st.audioQueue := List.count_pos_iff.mpr h2
        revert hpos
        simp only [allIds]
        cases hca : st.currentAudio with
        | none =>
          simp only [List.count_append, List.nil_append, List.count_nil]
          omega
        | some a =>
          simp only [List.count_append, List.nil_append, List.count_nil]
          intro hpos
          have hle : List.count id (st.activeList.erase a) ≤
              List.count id st.activeList := by
            rw [count_erase_of_mem id]
            exact Nat.sub_le _ _
          omega
      · have hc1 : 0 < List.count id st.activeList := List.count_pos_iff.mpr h3.2
        revert hpos
        simp only [allIds]
        rw [h3.1]
        simp only [List.count_append, List.nil_append, List.count_nil]
        intro hpos
        have hself : List.count id (st.activeList.erase id) =
            List.count id st.activeList - 1 := by
          rw [count_erase_of_mem id]
          simp
        omega
    have hframe := ttsRun_frame post _ st2 hpost id hlt hnotin
    exact ⟨hframe.2.1, hframe.2.2⟩

set_option maxRecDepth 8192 in
theorem stop_clears_pipeline_witness :
    demoStopped.textQueue = [] ∧ demoStopped.audioQueue = [] ∧
    demoStopped.isProcessingText = false ∧ demoStopped.isProcessingPlayback = false ∧
    (∀ id ∈ demoPreFinal.audioQueue, id ∈ demoStopped.released) ∧
    (∀ id, id ∈ demoPreFinal.textQueue ∨ id ∈ demoPreFinal.audioQueue ∨
        (demoPreFinal.currentAudio = some id ∧ id ∈ demoPreFinal.activeList) →
      List.count id demoPostFinal.startLog = List.count id demoPreFinal.startLog ∧
      List.count id demoPostFinal.endLog = List.count id demoPreFinal.endLog) :=
  stop_clears_pipeline demoPre demoPost demoPreFinal demoStopped demoPostFinal
    (by decide) (by decide) (by decide)

end Manazra
